import Mathlib

/-!
Verification of the subscription-commerce backend's core: the subscription
ledger (SubscriptionQueue), the payment-callback handler, the lifecycle
scheduler, and the refresh-token issuer/verifier.

Shallow embedding conventions:
- MongoDB documents become Lean structures; object ids and foreign keys are
  `Nat`; mongoose `Date` values live on a single integer timeline measured in
  MINUTES (the code mixes `Date`, `moment().add(d, 'days')`,
  `subtract(h, 'hours')`, `add(16, 'minutes')`; one minute is the unit, so a
  day is 1440 and an hour is 60).
- `Model.findOne(q).sort({queuePosition: -1})` becomes a fold computing the
  maximal-position matching document; a plain `findOne` becomes `List.find?`
  in insertion order; `Model.create` appends at the end of the list;
  `doc.save()` replaces the stored document having the same id.
- `findByIdAndUpdate` on an absent id is a no-op, as in mongoose.
- Exceptions (a `TypeError` from dereferencing a failed `populate`, a thrown
  mongoose error) are modeled by early exit carrying the state mutated so far,
  mirroring the `try/catch` placement in the source.
-/

/-! ## Data model (src/src/models) -/

/-- Status of a `SubscriptionQueue` document (`SubscriptionPlan.js`,
`subscriptionQueueSchema.status`, enum `['pending','active','completed']`). -/
inductive QStatus
  | pending
  | active
  | completed
deriving DecidableEq

/-- One `SubscriptionPlan` document. `tier`, `name` and `currency` are coded
as `Nat` (their concrete string values never influence control flow in the
verified code paths). Durations are in days, as in the schema. -/
structure Plan where
  planId : Nat
  name : Nat
  tier : Nat
  durationDays : Int
  price : Int
  maxTargetsVisible : Int
  reminderHours : Int
deriving DecidableEq

/-- One `SubscriptionQueue` document. `activationDate` and `expiryDate` are
optional in the schema (`type: Date` without `required`). -/
structure QEntry where
  entryId : Nat
  user : Nat
  planId : Nat
  status : QStatus
  queuePosition : Nat
  activationDate : Option Int
  expiryDate : Option Int
  paymentId : Nat
deriving DecidableEq

/-- The denormalized subscription snapshot embedded on a `User` document
(`User.js`, `userSchema.subscription`). -/
structure Snapshot where
  planTier : Nat
  startDate : Option Int
  endDate : Option Int
  isActive : Bool
  maxTargetsVisible : Int
  reminderHours : Int
  reminderSent : Bool
deriving DecidableEq

/-- The parts of a `User` document the verified code paths read or write.
`fcmToken` is the push-notification channel (`null` when unregistered). -/
structure UserRec where
  isActive : Bool
  fcmToken : Option Nat
  subscription : Snapshot
deriving DecidableEq

/-- Status of a `Payment` document. -/
inductive PayStatus
  | pending
  | completed
  | failed
deriving DecidableEq

/-- One `Payment` document (`transactionId` is the gateway idempotency key,
unique in the schema). -/
structure PaymentRec where
  payId : Nat
  user : Nat
  planId : Nat
  amount : Int
  status : PayStatus
  transactionId : Nat
  phonepeTransactionId : Option Nat
deriving DecidableEq

/-- The persistent store shared by the controllers and the scheduler.
`users` is an association list keyed by user id; `nextEntryId` models
MongoDB's fresh `_id` generation for `SubscriptionQueue.create`. -/
structure DB where
  entries : List QEntry
  users : List (Nat × UserRec)
  payments : List PaymentRec
  plans : List Plan
  nextEntryId : Nat
deriving DecidableEq

/-! ## Store primitives -/

/-- Update-by-key used to model `doc.save()` / `findByIdAndUpdate`:
replace every element whose key equals `k` by `v` (keys are unique in any
well-formed store, so at most one element is replaced). -/
def updBy {α : Type} (key : α → Nat) (k : Nat) (v : α) (x : α) : α :=
  if key x == k then v else x

/-- Model of `SubscriptionPlan.findById` (and of a successful `populate`). -/
def findPlan (plans : List Plan) (pid : Nat) : Option Plan :=
  plans.find? (fun p => p.planId == pid)

/-- Model of `Payment.findById`. -/
def findPayment (db : DB) (pid : Nat) : Option PaymentRec :=
  db.payments.find? (fun p => p.payId == pid)

/-- Model of `Payment.findOne({ transactionId })`. -/
def findPaymentByTxn (db : DB) (txn : Nat) : Option PaymentRec :=
  db.payments.find? (fun p => p.transactionId == txn)

/-- Model of `User.findById`. -/
def findUserRec (us : List (Nat × UserRec)) (u : Nat) : Option UserRec :=
  (us.find? (fun x => x.1 == u)).map (fun x => x.2)

/-- Model of `User.findByIdAndUpdate` (no-op when the id is absent). -/
def updateUserRec (us : List (Nat × UserRec)) (u : Nat) (f : UserRec → UserRec) :
    List (Nat × UserRec) :=
  us.map (fun x => if x.1 == u then (x.1, f x.2) else x)

/-- Model of `doc.save()` for a `SubscriptionQueue` document. -/
def saveEntry (db : DB) (e : QEntry) : DB :=
  { db with entries := db.entries.map (updBy (fun x => x.entryId) e.entryId e) }

/-- Model of `payment.save()`. -/
def savePayment (db : DB) (p : PaymentRec) : DB :=
  { db with payments := db.payments.map (updBy (fun x => x.payId) p.payId p) }

/-- Fold computing `findOne(...).sort({queuePosition: -1})`: the matching
document with the greatest `queuePosition` (first one wins on a tie, which a
well-formed store never has). -/
def maxByPosStep (acc : Option QEntry) (e : QEntry) : Option QEntry :=
  match acc with
  | none => some e
  | some a => if e.queuePosition > a.queuePosition then some e else some a

/-- Maximal-position document of a list (`none` on the empty list). -/
def maxByPos (l : List QEntry) : Option QEntry :=
  l.foldl maxByPosStep none

/-- True for `status ∈ ['active', 'pending']` (the `$in` filter of
`activateAndQueuePlan`). -/
def isActiveOrPending (e : QEntry) : Bool :=
  e.status == QStatus.active || e.status == QStatus.pending

/-- Model of
`SubscriptionQueue.findOne({user, status: {$in: ['active','pending']}}).sort({queuePosition: -1})`. -/
def findActiveOrPending (db : DB) (u : Nat) : Option QEntry :=
  maxByPos (db.entries.filter (fun e => e.user == u && isActiveOrPending e))

/-- Model of `SubscriptionQueue.findOne({user}).sort({queuePosition: -1})`. -/
def lastEntryOverall (db : DB) (u : Nat) : Option QEntry :=
  maxByPos (db.entries.filter (fun e => e.user == u))

/-! ## Subscription ledger: activateAndQueuePlan
(src/src/controllers/subscription-controller.js, lines 238–293) -/

/-- Minutes in a day: `moment(d).add(n, 'days')` on the minute timeline. -/
def minutesPerDay : Int := 1440

/-- The snapshot written by both `activateAndQueuePlan` (lines 280–292) and
the scheduler's promotion branch (scheduler-service.js lines 57–67); the two
sites write exactly the same fields. -/
def mkSnapshot (p : Plan) (act expd : Int) : Snapshot :=
  { planTier := p.tier
  , startDate := some act
  , endDate := some expd
  , isActive := true
  , maxTargetsVisible := p.maxTargetsVisible
  , reminderHours := p.reminderHours
  , reminderSent := false }

/-- JavaScript's `activeOrPending.expiryDate > new Date() ? activeOrPending.expiryDate : new Date()`:
an absent date compares false, so `now` is used. -/
def jsLaterOf (o : Option Int) (now : Int) : Int :=
  match o with
  | some e => if e > now then e else now
  | none => now

/-- The document `activateAndQueuePlan` is about to `create`, computed by its
read phase (every field of the `SubscriptionQueue.create` call except the
store-generated `_id`). -/
structure PreparedEntry where
  userId : Nat
  plan : Plan
  status : QStatus
  queuePosition : Nat
  activationDate : Int
  expiryDate : Int
  paymentId : Nat
deriving DecidableEq

/-- The first write of `activateAndQueuePlan`:
`User.findByIdAndUpdate(userId, {isActive: true})` (subscription-controller.js
line 240). -/
def markUserActive (db : DB) (userId : Nat) : DB :=
  { db with users := updateUserRec db.users userId (fun u => { u with isActive := true }) }

/-- Read phase of `activateAndQueuePlan` (subscription-controller.js lines
239–268): activate the user, load the payment and its plan (`none` models the
thrown `TypeError` when the payment is absent, and the logged early return
when the plan is absent), then compute queue position, status and dates from
the current queue. Every store read here is a separate awaited query: another
request's writes may land between this phase and the commit phase below,
which is exactly the race analysed for queue positions. -/
def enqueuePrepare (db : DB) (userId paymentId : Nat) (now : Int) :
    DB × Option PreparedEntry :=
  let db1 : DB := markUserActive db userId
  match findPayment db1 paymentId with
  | none => (db1, none)
  | some pay =>
    match findPlan db1.plans pay.planId with
    | none => (db1, none)
    | some plan =>
      let aop := findActiveOrPending db1 userId
      let lastE := lastEntryOverall db1 userId
      let position : Nat :=
        match lastE with
        | some e => e.queuePosition + 1
        | none => 1
      let status : QStatus :=
        match aop with
        | none => QStatus.active
        | some _ => QStatus.pending
      let activationDate : Int :=
        match aop with
        | none => now
        | some a => jsLaterOf a.expiryDate now
      let expiryDate : Int := activationDate + plan.durationDays * minutesPerDay
      (db1, some { userId := userId, plan := plan, status := status
                 , queuePosition := position, activationDate := activationDate
                 , expiryDate := expiryDate, paymentId := pay.payId })

/-- Write phase of `activateAndQueuePlan` (subscription-controller.js lines
270–292): `SubscriptionQueue.create(...)` and, when the entry is created
`active`, the snapshot write onto the user document. -/
def enqueueCommit (db : DB) (prep : Option PreparedEntry) : DB :=
  match prep with
  | none => db
  | some pr =>
    let e : QEntry :=
      { entryId := db.nextEntryId, user := pr.userId, planId := pr.plan.planId
      , status := pr.status, queuePosition := pr.queuePosition
      , activationDate := some pr.activationDate, expiryDate := some pr.expiryDate
      , paymentId := pr.paymentId }
    let db2 : DB := { db with entries := db.entries ++ [e], nextEntryId := db.nextEntryId + 1 }
    if pr.status == QStatus.active then
      let us := updateUserRec db2.users pr.userId
        (fun u => { u with subscription := mkSnapshot pr.plan pr.activationDate pr.expiryDate })
      { db2 with users := us }
    else db2

/-- `activateAndQueuePlan(userId, transactionId, paymentId)` from
subscription-controller.js lines 238–293 (the `transactionId` parameter is
only used for logging in the source and is dropped here): the read phase
followed immediately by the write phase. -/
def activateAndQueuePlan (db : DB) (userId paymentId : Nat) (now : Int) : DB :=
  let r := enqueuePrepare db userId paymentId now
  enqueueCommit r.1 r.2

/-! ## Payment Event Handler: paymentCallback
(src/src/controllers/subscription-controller.js, lines 152–187) -/

/-- Result code of a decoded PhonePe callback. -/
inductive CallbackCode
  | paymentSuccess
  | paymentError
  | paymentDeclined
  | otherCode
deriving DecidableEq

/-- HTTP-level outcome of `paymentCallback` (signature verification and
response decoding are performed upstream by the gateway client and are a
precondition here, as in the spec's collaborator contract). -/
inductive CbResult
  | ok
  | paymentNotFound
deriving DecidableEq

/-- `paymentCallback` after signature verification and decoding: look up the
payment by `merchantTransactionId`; on `PAYMENT_SUCCESS` mark it completed,
record the gateway transaction id and run `activateAndQueuePlan`; on
`PAYMENT_ERROR`/`PAYMENT_DECLINED` mark it failed; otherwise do nothing.
Note the source performs no terminal-status check before reprocessing. -/
def paymentCallback (db : DB) (txn : Nat) (code : CallbackCode) (gw : Option Nat)
    (now : Int) : DB × CbResult :=
  match findPaymentByTxn db txn with
  | none => (db, CbResult.paymentNotFound)
  | some pay =>
    match code with
    | CallbackCode.paymentSuccess =>
      let db1 := savePayment db { pay with status := PayStatus.completed
                                         , phonepeTransactionId := gw }
      (activateAndQueuePlan db1 pay.user pay.payId now, CbResult.ok)
    | CallbackCode.paymentError =>
      (savePayment db { pay with status := PayStatus.failed }, CbResult.ok)
    | CallbackCode.paymentDeclined =>
      (savePayment db { pay with status := PayStatus.failed }, CbResult.ok)
    | CallbackCode.otherCode => (db, CbResult.ok)

/-! ## Lifecycle Scheduler: checkExpiriesAndReminders
(src/src/services/scheduler-service.js, lines 23–101) -/

/-- One reminder notification handed to `sendToUser`. -/
structure Reminder where
  user : Nat
  entryId : Nat
deriving DecidableEq

/-- Write `{'subscription.isActive': false}` onto the user document
(scheduler-service.js lines 72–74). -/
def setSnapshotInactive (db : DB) (u : Nat) : DB :=
  let us := updateUserRec db.users u
    (fun ur => { ur with subscription := { ur.subscription with isActive := false } })
  { db with users := us }

/-- Overwrite the user's snapshot with a freshly-activated plan
(scheduler-service.js lines 57–67). -/
def setUserSnapshot (db : DB) (u : Nat) (s : Snapshot) : DB :=
  { db with users := updateUserRec db.users u (fun ur => { ur with subscription := s }) }

/-- Model of `SubscriptionQueue.findOne({user, status: 'pending',
queuePosition: expired.queuePosition + 1})` (scheduler-service.js lines
39–43). -/
def findNextPending (db : DB) (e : QEntry) : Option QEntry :=
  db.entries.find? (fun x =>
    x.user == e.user && x.status == QStatus.pending
      && x.queuePosition == e.queuePosition + 1)

/-- Processing of one expired entry inside the scheduler's first loop
(scheduler-service.js lines 33–77): mark it completed, look for the pending
entry at `queuePosition + 1` for the same user; promote it (activation = the
sweep instant, expiry = activation + its plan's duration, snapshot
overwritten) or, failing that, clear the snapshot's `isActive`. The second
component is `false` when `populate('planId')` produced `null` and
`nextPlan.planId.durationDays` threw, aborting the whole sweep. -/
def processExpired (db : DB) (t : Int) (e : QEntry) : DB × Bool :=
  let db1 := saveEntry db { e with status := QStatus.completed }
  match findNextPending db1 e with
  | none => (setSnapshotInactive db1 e.user, true)
  | some nx =>
    match findPlan db1.plans nx.planId with
    | none => (db1, false)
    | some p =>
      let act := t
      let expd := t + p.durationDays * minutesPerDay
      let nx' : QEntry :=
        { nx with status := QStatus.active,
                  activationDate := some act, expiryDate := some expd }
      let db2 := saveEntry db1 nx'
      (setUserSnapshot db2 e.user (mkSnapshot p act expd), true)

/-- The scheduler's first loop over the pre-queried list of expired plans;
stops early (second component `false`) when an iteration threw. -/
def sweepExpiredList (t : Int) : DB → List QEntry → DB × Bool
  | db, [] => (db, true)
  | db, e :: rest =>
    match processExpired db t e with
    | (db1, true) => sweepExpiredList t db1 rest
    | (db1, false) => (db1, false)

/-- JavaScript `moment().isBetween(a, b)` with default `'()'` inclusivity:
strictly between, both endpoints excluded. -/
def isBetweenExcl (a x b : Int) : Bool :=
  decide (a < x) && decide (x < b)

/-- The scheduler's reminder loop (scheduler-service.js lines 79–96) over the
currently-active entries: skip users without an `fcmToken`; fire when the
sweep instant lies strictly inside the 16-minute window starting at
`expiryDate - reminderHours` hours (`entry.planId.reminderHours || 24`
replaces a zero lead by 24). A missing plan after `populate` throws, which
truncates the remaining iterations; the note in the model is that the
snapshot's `reminderSent` flag is never read or written here. -/
def reminderPass (db : DB) (t : Int) : List QEntry → List Reminder
  | [] => []
  | e :: rest =>
    match findPlan db.plans e.planId with
    | none => []
    | some p =>
      match findUserRec db.users e.user with
      | none => reminderPass db t rest
      | some u =>
        match u.fcmToken with
        | none => reminderPass db t rest
        | some _ =>
          let rh : Int := if p.reminderHours == 0 then 24 else p.reminderHours
          let ed : Int :=
            match e.expiryDate with
            | some d => d
            | none => t
          let rt := ed - rh * 60
          if isBetweenExcl rt t (rt + 16) then
            { user := e.user, entryId := e.entryId } :: reminderPass db t rest
          else
            reminderPass db t rest

/-- Model of `SubscriptionQueue.find({status: 'active', expiryDate: {$lte: now}})`
(scheduler-service.js lines 28–31): the list of expired active plans queried
once at the start of the sweep. -/
def expiredSnap (db : DB) (t : Int) : List QEntry :=
  db.entries.filter (fun e =>
    e.status == QStatus.active &&
      (match e.expiryDate with
       | some d => decide (d ≤ t)
       | none => false))

/-- Model of `SubscriptionQueue.find({status: 'active'})` for the reminder
loop. -/
def activeEntries (db : DB) : List QEntry :=
  db.entries.filter (fun e => e.status == QStatus.active)

/-- One execution of `checkExpiriesAndReminders` at instant `t`: query the
active entries whose `expiryDate ≤ t`, process each, then (unless the first
loop threw, in which case the top-level `catch` swallows the error) run the
reminder loop over the then-active entries. Returns the new store and the
reminders sent. -/
def sweep (db : DB) (t : Int) : DB × List Reminder :=
  match sweepExpiredList t db (expiredSnap db t) with
  | (db1, true) => (db1, reminderPass db1 t (activeEntries db1))
  | (db1, false) => (db1, [])

/-! ## Operation sequences -/

/-- An operation on the shared store: a payment-success enqueue
(`activateAndQueuePlan`) or a scheduler sweep. -/
inductive Op
  | enq (userId paymentId : Nat) (now : Int)
  | sweepAt (t : Int)

/-- Apply one operation. -/
def applyOp (db : DB) : Op → DB
  | Op.enq u pid now => activateAndQueuePlan db u pid now
  | Op.sweepAt t => (sweep db t).1

/-- Run a sequence of operations left to right. -/
def runOps (db : DB) : List Op → DB
  | [] => db
  | op :: rest => runOps (applyOp db op) rest

/-! ## Counting helpers for the invariants -/

/-- Number of the user's entries with `status = active`. -/
def activeCount (db : DB) (u : Nat) : Nat :=
  db.entries.countP (fun e => e.user == u && e.status == QStatus.active)

/-- Number of the user's entries. -/
def userCount (db : DB) (u : Nat) : Nat :=
  db.entries.countP (fun e => e.user == u)

/-- Number of the user's entries at a given `queuePosition`. -/
def posCount (db : DB) (u k : Nat) : Nat :=
  db.entries.countP (fun e => e.user == u && e.queuePosition == k)

/-- Entry ids present in the store. -/
def entryIds (db : DB) : List Nat :=
  db.entries.map (fun e => e.entryId)

/-- Store well-formedness: entry ids are distinct and below the id counter,
and no user has two active entries. -/
structure WF (db : DB) : Prop where
  nodupIds : (entryIds db).Nodup
  idsLt : ∀ e ∈ db.entries, e.entryId < db.nextEntryId
  activeLe : ∀ u, activeCount db u ≤ 1

/-- Queue positions of every user form the contiguous range `1..userCount`
with no duplicates, stated through counts. -/
def PosOK (db : DB) : Prop :=
  ∀ u k, posCount db u k = if 1 ≤ k ∧ k ≤ userCount db u then 1 else 0

/-- Referential integrity of plan lookups: every queued entry's plan exists
in the catalog (what a successful `populate('planId')` needs). -/
def PlansOK (db : DB) : Prop :=
  ∀ e ∈ db.entries, (findPlan db.plans e.planId).isSome

/-! ## Token Issuer and Credential Store
(src/unnamed/part_006 `auth-middleware`, src/unnamed/part_014 `RefreshToken`
model, src/src/controllers/auth-controller.js) -/

/-- Owner type embedded in a token payload (`type` claim, `'user' | 'admin'`). -/
inductive OwnerType
  | user
  | admin
deriving DecidableEq

/-- A stored `RefreshToken` document (part_014): `jti` is the opaque unique
identifier embedded in the signed token, `recId` models the Mongo `_id`
referenced by `replacedBy`. -/
structure RTRecord where
  recId : Nat
  jti : Nat
  user : Nat
  userModel : OwnerType
  expiresAt : Int
  createdAt : Int
  revokedAt : Option Int
  replacedBy : Option Nat
  ip : Option String
  userAgent : Option String
deriving DecidableEq

/-- Decoded payload of a signed refresh token (`{ id, type, jti }`). -/
structure RTPayload where
  id : Nat
  tokenType : OwnerType
  jti : Nat
deriving DecidableEq

/-- A signed refresh JWT, modeled as its payload, its `exp` claim, and the
key it was signed with; `jwt.verify(token, key)` succeeds exactly when the
keys match and the token is not past `exp`. -/
structure RefreshJwt where
  payload : RTPayload
  exp : Int
  secret : Nat
deriving DecidableEq

/-- A signed access JWT (`generateAccessToken`): no `jti`, signed with the
access secret. -/
structure AccessJwt where
  id : Nat
  tokenType : OwnerType
  exp : Int
  secret : Nat
deriving DecidableEq

/-- Signing key codes for `env.jwt.secret` and `env.jwt.refreshSecret`
(distinct configuration values). -/
def accessSecret : Nat := 0

/-- Key code for `env.jwt.refreshSecret`. -/
def refreshSecret : Nat := 1

/-- Configured access-token lifetime `env.jwt.expiresIn`, on the same
integer timeline as the rest of the model. -/
def accessTTL : Int := 7 * minutesPerDay

/-- Configured refresh-token lifetime `env.jwt.refreshExpiresIn`. -/
def refreshTTL : Int := 30 * minutesPerDay

/-- Request metadata captured at issuance. -/
structure ReqMeta where
  ip : Option String
  userAgent : Option String
deriving DecidableEq

/-- JavaScript `meta.ip || null`: an absent or empty string becomes `null`. -/
def jsOrNull (o : Option String) : Option String :=
  match o with
  | some s => if s.isEmpty then none else some s
  | none => none

/-- Failure modes of `verifyRefreshToken`, matching the spec taxonomy: the
`jwt.verify` throw site (`JsonWebTokenError`/`TokenExpiredError`, the
cryptographic layer), then the three `AppError(..., 401)` throw sites
`'Refresh token not recognized'`, `'Refresh token revoked'`,
`'Refresh token expired'` in part_006 lines 150–166. -/
inductive VerifyErr
  | invalidCredential
  | unknownToken
  | revokedToken
  | expiredToken
deriving DecidableEq

/-- `generateAccessToken(id, type)`: `jwt.sign({id, type}, env.jwt.secret,
{expiresIn})`. -/
def generateAccessToken (id : Nat) (t : OwnerType) (now : Int) : AccessJwt :=
  { id := id, tokenType := t, exp := now + accessTTL, secret := accessSecret }

/-- `generateRefreshToken(id, type, meta)` (part_006 lines 128–143): mint a
fresh `jti` (supplied here as an argument, as is the fresh record id the
store generates), sign `{id, type, jti}` with the refresh secret, and persist
a `RefreshToken` row whose `expiresAt` is the token's `exp` claim. Returns
the signed token, the created record, and the store with the row appended. -/
def generateRefreshToken (id : Nat) (t : OwnerType) (meta : ReqMeta) (now : Int)
    (jti recId : Nat) (store : List RTRecord) :
    RefreshJwt × RTRecord × List RTRecord :=
  let token : RefreshJwt :=
    { payload := { id := id, tokenType := t, jti := jti }
    , exp := now + refreshTTL, secret := refreshSecret }
  let tokenRecord : RTRecord :=
    { recId := recId, jti := jti, user := id
    , userModel := match t with
                   | OwnerType.admin => OwnerType.admin
                   | OwnerType.user => OwnerType.user
    , expiresAt := token.exp, createdAt := now
    , revokedAt := none, replacedBy := none
    , ip := jsOrNull meta.ip, userAgent := jsOrNull meta.userAgent }
  (token, tokenRecord, store ++ [tokenRecord])

/-- `RefreshToken.findOne({ jti })`. -/
def findRT (store : List RTRecord) (jti : Nat) : Option RTRecord :=
  store.find? (fun r => r.jti == jti)

/-- `tokenRecord.save()`. -/
def saveRT (store : List RTRecord) (r : RTRecord) : List RTRecord :=
  store.map (updBy (fun x => x.recId) r.recId r)

/-- `verifyRefreshToken(token)` (part_006 lines 150–166): `jwt.verify`
against the refresh secret, then record lookup by the embedded `jti`, then
the revocation check (`tokenRecord.revokedAt`), then the store-side expiry
check (`new Date() > tokenRecord.expiresAt`, strict). On success both the
decoded payload and the stored record are returned. -/
def verifyRefreshToken (token : RefreshJwt) (store : List RTRecord) (now : Int) :
    Except VerifyErr (RTPayload × RTRecord) :=
  if token.secret ≠ refreshSecret ∨ now ≥ token.exp then
    Except.error VerifyErr.invalidCredential
  else
    match findRT store token.payload.jti with
    | none => Except.error VerifyErr.unknownToken
    | some tokenRecord =>
      if tokenRecord.revokedAt.isSome then
        Except.error VerifyErr.revokedToken
      else if now > tokenRecord.expiresAt then
        Except.error VerifyErr.expiredToken
      else
        Except.ok ({ id := token.payload.id, tokenType := token.payload.tokenType
                   , jti := token.payload.jti }, tokenRecord)

/-- Modelled from the spec, §4.1 `verifyRefreshToken`: "fails with
`InvalidCredential` if signature/expiry check fails at the cryptographic
layer; otherwise looks up the embedded token identifier in the Credential
Store: fails with `UnknownToken` if absent, `RevokedToken` if `revokedAt`
set, `ExpiredToken` if past `expiresAt`. On success returns the decoded
payload and the record." Written from those words (as a decision list over
the looked-up record) to be compared with the source embedding above. -/
def verifyRefreshTokenSpec (token : RefreshJwt) (store : List RTRecord) (now : Int) :
    Except VerifyErr (RTPayload × RTRecord) :=
  let cryptoOK := token.secret = refreshSecret ∧ now < token.exp
  if ¬cryptoOK then Except.error VerifyErr.invalidCredential
  else
    match findRT store token.payload.jti with
    | none => Except.error VerifyErr.unknownToken
    | some r =>
      match r.revokedAt with
      | some _ => Except.error VerifyErr.revokedToken
      | none =>
        if r.expiresAt < now then Except.error VerifyErr.expiredToken
        else Except.ok ({ id := token.payload.id
                        , tokenType := token.payload.tokenType
                        , jti := token.payload.jti }, r)

/-- User table visible to the auth controller (`User.findById`; only
`isActive` is consulted on the refresh path). -/
structure AuthUser where
  isActive : Bool
deriving DecidableEq

/-- Auth-side persistent state: refresh-token store plus users. -/
structure AuthDB where
  tokens : List RTRecord
  users : List (Nat × AuthUser)
deriving DecidableEq

/-- `User.findById` on the auth side. -/
def findAuthUser (us : List (Nat × AuthUser)) (u : Nat) : Option AuthUser :=
  (us.find? (fun x => x.1 == u)).map (fun x => x.2)

/-- Failure modes of `refreshAccessToken` (auth-controller.js lines
105–150): the catch-all rethrow of a failed verification, the token-type
check, the user lookup, and the disabled-account check. -/
inductive RefreshErr
  | invalidOrExpired
  | invalidTokenType
  | userNotFound
  | accountDisabled
deriving DecidableEq

/-- `refreshAccessToken` (auth-controller.js lines 105–150): verify the
presented refresh token, check `decoded.type === 'user'`, load the user,
reject disabled accounts; then issue a new access token, issue-and-persist a
new refresh token (`generateRefreshToken` awaits before anything else
mutates), and only afterwards revoke the old record and link
`replacedBy = newRecord._id` via `tokenRecord.save()`. Returns the two new
tokens, the new record, and the final state. -/
def refreshAccessToken (db : AuthDB) (token : RefreshJwt) (now : Int)
    (jti' recId' : Nat) (meta : ReqMeta) :
    Except RefreshErr (AccessJwt × RefreshJwt × RTRecord × AuthDB) :=
  match verifyRefreshToken token db.tokens now with
  | Except.error _ => Except.error RefreshErr.invalidOrExpired
  | Except.ok (decoded, tokenRecord) =>
    if decoded.tokenType ≠ OwnerType.user then Except.error RefreshErr.invalidTokenType
    else
      match findAuthUser db.users decoded.id with
      | none => Except.error RefreshErr.userNotFound
      | some u =>
        if ¬u.isActive then Except.error RefreshErr.accountDisabled
        else
          let newAccessToken := generateAccessToken decoded.id OwnerType.user now
          let g := generateRefreshToken decoded.id OwnerType.user meta now jti' recId' db.tokens
          let oldUpdated : RTRecord :=
            { tokenRecord with revokedAt := some now, replacedBy := some g.2.1.recId }
          let tokens2 := saveRT g.2.2 oldUpdated
          Except.ok (newAccessToken, g.1, g.2.1, { db with tokens := tokens2 })

/-- The intermediate credential store of `refreshAccessToken` after the
`await generateRefreshToken(...)` resolves and before
`tokenRecord.save()` runs: the state a crash between the two awaits would
leave behind. -/
def rotationIntermediateStore (db : AuthDB) (token : RefreshJwt) (now : Int)
    (jti' recId' : Nat) (meta : ReqMeta) : List RTRecord :=
  (generateRefreshToken token.payload.id OwnerType.user meta now jti' recId' db.tokens).2.2

/-- `logout` (auth-controller.js lines 156–172): try to verify the presented
refresh token; if verification fails for any reason, return the success
response unchanged ("to avoid token fishing"); otherwise set
`revokedAt = now` on the record and return the same success response. The
`Bool` is `true` for the HTTP 200 `{status: 'success'}` body, which is the
only response this handler can produce. -/
def logout (db : AuthDB) (token : RefreshJwt) (now : Int) : Bool × AuthDB :=
  match verifyRefreshToken token db.tokens now with
  | Except.error _ => (true, db)
  | Except.ok (_, tokenRecord) =>
    (true, { db with tokens := saveRT db.tokens { tokenRecord with revokedAt := some now } })

/-! ## Generic lemmas about keyed stores -/

theorem updBy_eq_of_key {α : Type} (key : α → Nat) (k : Nat) (v x : α)
    (h : key x = k) : updBy key k v x = v := by
  simp [updBy, h]

theorem updBy_eq_of_ne {α : Type} (key : α → Nat) (k : Nat) (v x : α)
    (h : key x ≠ k) : updBy key k v x = x := by
  simp [updBy, h]

theorem map_updBy_of_notMem {α : Type} (key : α → Nat) (k : Nat) (v : α)
    (l : List α) (h : ∀ x ∈ l, key x ≠ k) : l.map (updBy key k v) = l := by
  have h' : ∀ x ∈ l, updBy key k v x = id x := by
    intro x hx
    simpa using updBy_eq_of_ne key k v x (h x hx)
  rw [List.map_congr_left h', List.map_id]

theorem nodup_key_decomp {α : Type} (key : α → Nat) (l : List α) (e : α)
    (hnd : (l.map key).Nodup) (he : e ∈ l) :
    ∃ l₁ l₂, l = l₁ ++ e :: l₂ ∧ (∀ x ∈ l₁, key x ≠ key e) ∧
      (∀ x ∈ l₂, key x ≠ key e) := by
  obtain ⟨l₁, l₂, rfl⟩ := List.append_of_mem he
  refine ⟨l₁, l₂, rfl, ?_, ?_⟩
  · intro x hx hk
    rw [List.map_append] at hnd
    have hdisj := (List.nodup_append.mp hnd).2.2
    exact hdisj (List.mem_map_of_mem key hx) (by simp [hk])
  · intro x hx hk
    rw [List.map_append] at hnd
    have htl := (List.nodup_append.mp hnd).2.1
    rw [List.map_cons, List.nodup_cons] at htl
    exact htl.1 (by rw [← hk]; exact List.mem_map_of_mem key hx)

theorem map_updBy_decomp {α : Type} (key : α → Nat) (v e : α) (l₁ l₂ : List α)
    (h₁ : ∀ x ∈ l₁, key x ≠ key e) (h₂ : ∀ x ∈ l₂, key x ≠ key e) :
    (l₁ ++ e :: l₂).map (updBy key (key e) v) = l₁ ++ v :: l₂ := by
  rw [List.map_append, List.map_cons]
  rw [map_updBy_of_notMem key (key e) v l₁ h₁]
  rw [map_updBy_of_notMem key (key e) v l₂ h₂]
  rw [updBy_eq_of_key key (key e) v e rfl]

theorem countP_map_updBy {α : Type} (key : α → Nat) (l : List α) (e v : α)
    (p : α → Bool) (hnd : (l.map key).Nodup) (he : e ∈ l) :
    (l.map (updBy key (key e) v)).countP p + (if p e then 1 else 0) =
      l.countP p + (if p v then 1 else 0) := by
  obtain ⟨l₁, l₂, rfl, h₁, h₂⟩ := nodup_key_decomp key l e hnd he
  rw [map_updBy_decomp key v e l₁ l₂ h₁ h₂]
  rw [List.countP_append, List.countP_append, List.countP_cons, List.countP_cons]
  generalize l₁.countP p = a
  generalize l₂.countP p = b
  generalize (if p e then 1 else 0) = x
  generalize (if p v then 1 else 0) = y
  omega

theorem mem_map_updBy_of_ne {α : Type} (key : α → Nat) (k : Nat) (v : α)
    (l : List α) (x : α) (hx : x ∈ l) (h : key x ≠ k) :
    x ∈ l.map (updBy key k v) := by
  have := List.mem_map_of_mem (updBy key k v) hx
  rwa [updBy_eq_of_ne key k v x h] at this

theorem mem_map_updBy_self {α : Type} (key : α → Nat) (v : α) (l : List α)
    (e : α) (he : e ∈ l) : v ∈ l.map (updBy key (key e) v) := by
  have := List.mem_map_of_mem (updBy key (key e) v) he
  rwa [updBy_eq_of_key key (key e) v e rfl] at this

theorem keys_map_updBy {α : Type} (key : α → Nat) (k : Nat) (v : α)
    (l : List α) (hv : key v = k) :
    (l.map (updBy key k v)).map key = l.map key := by
  rw [List.map_map]
  apply List.map_congr_left
  intro x _
  by_cases h : key x = k
  · simp [updBy, h, hv]
  · simp [updBy, h]

theorem key_inj {α : Type} (key : α → Nat) (l : List α)
    (hnd : (l.map key).Nodup) {a b : α} (ha : a ∈ l) (hb : b ∈ l)
    (h : key a = key b) : a = b :=
  List.inj_on_of_nodup_map hnd ha hb h

theorem find?_map_congr {α : Type} (f : α → α) (p : α → Bool) (l : List α)
    (h1 : ∀ x ∈ l, p (f x) = p x) (h2 : ∀ x ∈ l, p x = true → f x = x) :
    (l.map f).find? p = l.find? p := by
  induction l with
  | nil => rfl
  | cons a t ih =>
    rw [List.map_cons]
    by_cases hpa : p a = true
    · rw [h2 a (List.mem_cons_self a t) hpa]
      rw [List.find?_cons_of_pos _ hpa, List.find?_cons_of_pos _ hpa]
    · have hfa : ¬ p (f a) = true := by
        rw [h1 a (List.mem_cons_self a t)]; exact hpa
      rw [List.find?_cons_of_neg _ hfa, List.find?_cons_of_neg _ hpa]
      exact ih (fun x hx => h1 x (List.mem_cons_of_mem a hx))
        (fun x hx => h2 x (List.mem_cons_of_mem a hx))

theorem find?_decomp {α : Type} (p : α → Bool) (l : List α) (a : α)
    (h : l.find? p = some a) :
    ∃ l₁ l₂, l = l₁ ++ a :: l₂ ∧ ∀ x ∈ l₁, p x = false := by
  induction l with
  | nil => simp [List.find?] at h
  | cons b t ih =>
    by_cases hpb : p b = true
    · rw [List.find?_cons_of_pos _ hpb] at h
      obtain rfl : b = a := by injection h
      exact ⟨[], t, rfl, by intro x hx; simp at hx⟩
    · rw [List.find?_cons_of_neg _ hpb] at h
      obtain ⟨l₁, l₂, rfl, hf⟩ := ih h
      refine ⟨b :: l₁, l₂, rfl, ?_⟩
      intro x hx
      rcases List.mem_cons.mp hx with rfl | hx'
      · exact eq_false_of_ne_true hpb
      · exact hf x hx'

theorem find?_eq_of_unique {α : Type} (p : α → Bool) (l : List α) (a : α)
    (ha : a ∈ l) (hp : p a = true) (hu : ∀ b ∈ l, p b = true → b = a) :
    l.find? p = some a := by
  induction l with
  | nil => simp at ha
  | cons b t ih =>
    by_cases hpb : p b = true
    · rw [List.find?_cons_of_pos _ hpb]
      rw [hu b (List.mem_cons_self b t) hpb]
    · rw [List.find?_cons_of_neg _ hpb]
      rcases List.mem_cons.mp ha with rfl | ha'
      · exact absurd hp hpb
      · exact ih ha' (fun c hc hpc => hu c (List.mem_cons_of_mem b hc) hpc)

theorem countP_eq_zero_filter {α : Type} (p : α → Bool) (l : List α)
    (h : l.countP p = 0) : l.filter p = [] := by
  have := List.countP_eq_length_filter p l
  rw [h] at this
  exact List.eq_nil_of_length_eq_zero this.symm

/-! ## Lemmas about the maximal-position fold -/

theorem maxByPos_foldl_some (l : List QEntry) : ∀ a : QEntry,
    ∃ b, l.foldl maxByPosStep (some a) = some b ∧ (b = a ∨ b ∈ l) ∧
      a.queuePosition ≤ b.queuePosition ∧
      ∀ c ∈ l, c.queuePosition ≤ b.queuePosition := by
  induction l with
  | nil => intro a; exact ⟨a, rfl, Or.inl rfl, le_refl _, by intro c hc; simp at hc⟩
  | cons e t ih =>
    intro a
    by_cases h : e.queuePosition > a.queuePosition
    · have hstep : maxByPosStep (some a) e = some e := by simp [maxByPosStep, h]
      obtain ⟨b, hf, hmem, hle, hall⟩ := ih e
      refine ⟨b, ?_, ?_, ?_, ?_⟩
      · rw [List.foldl_cons, hstep]; exact hf
      · rcases hmem with rfl | hb
        · exact Or.inr (List.mem_cons_self _ _)
        · exact Or.inr (List.mem_cons_of_mem _ hb)
      · omega
      · intro c hc
        rcases List.mem_cons.mp hc with rfl | hc'
        · exact hle
        · exact hall c hc'
    · have hstep : maxByPosStep (some a) e = some a := by simp [maxByPosStep, h]
      obtain ⟨b, hf, hmem, hle, hall⟩ := ih a
      refine ⟨b, ?_, ?_, hle, ?_⟩
      · rw [List.foldl_cons, hstep]; exact hf
      · rcases hmem with rfl | hb
        · exact Or.inl rfl
        · exact Or.inr (List.mem_cons_of_mem _ hb)
      · intro c hc
        rcases List.mem_cons.mp hc with rfl | hc'
        · omega
        · exact hall c hc'

theorem maxByPos_spec (l : List QEntry) (a : QEntry) (h : maxByPos l = some a) :
    a ∈ l ∧ ∀ b ∈ l, b.queuePosition ≤ a.queuePosition := by
  cases l with
  | nil => simp [maxByPos] at h
  | cons e t =>
    obtain ⟨b, hf, hmem, hle, hall⟩ := maxByPos_foldl_some t e
    have : maxByPos (e :: t) = some b := by
      rw [maxByPos, List.foldl_cons]
      exact hf
    rw [this] at h
    obtain rfl : b = a := by injection h
    constructor
    · rcases hmem with rfl | hb
      · exact List.mem_cons_self _ _
      · exact List.mem_cons_of_mem _ hb
    · intro c hc
      rcases List.mem_cons.mp hc with rfl | hc'
      · exact hle
      · exact hall c hc'

theorem maxByPos_isSome (l : List QEntry) (h : l ≠ []) : ∃ a, maxByPos l = some a := by
  cases l with
  | nil => exact absurd rfl h
  | cons e t =>
    obtain ⟨b, hf, _, _, _⟩ := maxByPos_foldl_some t e
    exact ⟨b, by rw [maxByPos, List.foldl_cons]; exact hf⟩

/-! ## Basic facts about the store operations -/

theorem saveEntry_users (db : DB) (v : QEntry) : (saveEntry db v).users = db.users := rfl

theorem saveEntry_plans (db : DB) (v : QEntry) : (saveEntry db v).plans = db.plans := rfl

theorem saveEntry_nextId (db : DB) (v : QEntry) :
    (saveEntry db v).nextEntryId = db.nextEntryId := rfl

theorem entryIds_saveEntry (db : DB) (v : QEntry) :
    entryIds (saveEntry db v) = entryIds db := by
  unfold entryIds saveEntry
  exact keys_map_updBy (fun x => x.entryId) v.entryId v db.entries rfl

theorem mem_saveEntry_cases (db : DB) (v x : QEntry)
    (hx : x ∈ (saveEntry db v).entries) : x = v ∨ x ∈ db.entries := by
  obtain ⟨y, hy, hxy⟩ := List.mem_map.mp hx
  by_cases h : y.entryId = v.entryId
  · rw [updBy_eq_of_key _ _ _ _ h] at hxy
    exact Or.inl hxy.symm
  · rw [updBy_eq_of_ne _ _ _ _ h] at hxy
    exact Or.inr (hxy ▸ hy)

theorem mem_saveEntry_of_ne (db : DB) (v x : QEntry) (hx : x ∈ db.entries)
    (h : x.entryId ≠ v.entryId) : x ∈ (saveEntry db v).entries := by
  unfold saveEntry
  exact mem_map_updBy_of_ne (fun x => x.entryId) v.entryId v db.entries x hx h

theorem mem_saveEntry_self (db : DB) (v e : QEntry) (he : e ∈ db.entries)
    (hk : v.entryId = e.entryId) : v ∈ (saveEntry db v).entries := by
  unfold saveEntry
  have := mem_map_updBy_self (fun x => x.entryId) v db.entries e he
  simp only at this
  rw [← hk] at this
  exact this

theorem countP_saveEntry (db : DB) (e v : QEntry) (p : QEntry → Bool)
    (hnd : (entryIds db).Nodup) (he : e ∈ db.entries) (hk : v.entryId = e.entryId) :
    ((saveEntry db v).entries).countP p + (if p e then 1 else 0) =
      db.entries.countP p + (if p v then 1 else 0) := by
  have hsave : (saveEntry db v).entries =
      db.entries.map (updBy (fun x => x.entryId) e.entryId v) := by
    unfold saveEntry
    rw [hk]
  rw [hsave]
  have hnd' : (db.entries.map (fun x => x.entryId)).Nodup := hnd
  exact countP_map_updBy (fun x => x.entryId) db.entries e v p hnd' he

theorem findUserRec_update_ne (us : List (Nat × UserRec)) (u w : Nat)
    (f : UserRec → UserRec) (h : w ≠ u) :
    findUserRec (updateUserRec us u f) w = findUserRec us w := by
  rw [findUserRec, findUserRec, updateUserRec]
  rw [find?_map_congr]
  · intro x _
    by_cases hxu : x.1 = u
    · simp [hxu, Ne.symm h]
    · simp [hxu]
  · intro x _ hx
    have hxw : x.1 = w := by simpa using hx
    simp [hxw, h]

theorem findUserRec_update_self (us : List (Nat × UserRec)) (u : Nat)
    (f : UserRec → UserRec) :
    findUserRec (updateUserRec us u f) u = (findUserRec us u).map f := by
  unfold findUserRec updateUserRec
  induction us with
  | nil => rfl
  | cons x t ih =>
    by_cases hxu : x.1 = u
    · simp [List.find?_cons, hxu]
    · have hb : (x.1 == u) = false := by simp [hxu]
      simp only [List.map_cons, hb, Bool.false_eq_true, if_false, List.find?_cons]
      exact ih

theorem setSnapshotInactive_entries (db : DB) (u : Nat) :
    (setSnapshotInactive db u).entries = db.entries := rfl

theorem setUserSnapshot_entries (db : DB) (u : Nat) (s : Snapshot) :
    (setUserSnapshot db u s).entries = db.entries := rfl

/-! ## Frame lemmas for the scheduler's expiry loop -/

/-- The sub-list of a user's queue entries, in store order. -/
def entriesOfUser (db : DB) (w : Nat) : List QEntry :=
  db.entries.filter (fun x => x.user == w)

theorem mem_entriesOfUser_iff (db : DB) (x : QEntry) (w : Nat) :
    x ∈ entriesOfUser db w ↔ x ∈ db.entries ∧ x.user = w := by
  simp [entriesOfUser, List.mem_filter]

theorem filter_user_saveEntry (db : DB) (e v : QEntry) (w : Nat)
    (hnd : (entryIds db).Nodup) (he : e ∈ db.entries)
    (hk : v.entryId = e.entryId) (hu : v.user = e.user) (hw : w ≠ e.user) :
    entriesOfUser (saveEntry db v) w = entriesOfUser db w := by
  have hnd' : (db.entries.map (fun x => x.entryId)).Nodup := hnd
  obtain ⟨l₁, l₂, hdec, h₁, h₂⟩ :=
    nodup_key_decomp (fun x => x.entryId) db.entries e hnd' he
  have hsave : (saveEntry db v).entries = l₁ ++ v :: l₂ := by
    unfold saveEntry
    simp only [hdec, hk]
    exact map_updBy_decomp (fun x => x.entryId) v e l₁ l₂ h₁ h₂
  have hew : (e.user == w) = false := by
    have : e.user ≠ w := Ne.symm hw
    simp [this]
  have hvw : (v.user == w) = false := by rw [hu]; exact hew
  unfold entriesOfUser
  rw [hsave, hdec, List.filter_append, List.filter_append]
  congr 1
  simp only [List.filter_cons, hew, hvw, Bool.false_eq_true, if_false]

theorem setSnapshotInactive_users (db : DB) (u : Nat) :
    (setSnapshotInactive db u).users = updateUserRec db.users u
      (fun ur => { ur with subscription := { ur.subscription with isActive := false } }) := rfl

theorem setUserSnapshot_users (db : DB) (u : Nat) (s : Snapshot) :
    (setUserSnapshot db u s).users =
      updateUserRec db.users u (fun ur => { ur with subscription := s }) := rfl

theorem findNextPending_props (db : DB) (e nx : QEntry)
    (h : findNextPending db e = some nx) :
    nx ∈ db.entries ∧ nx.user = e.user ∧ nx.status = QStatus.pending ∧
      nx.queuePosition = e.queuePosition + 1 := by
  unfold findNextPending at h
  have hmem := List.mem_of_find?_eq_some h
  have hp := List.find?_some h
  simp only [Bool.and_eq_true, beq_iff_eq] at hp
  exact ⟨hmem, hp.1.1, hp.1.2, hp.2⟩

theorem entriesOfUser_setUserSnapshot (db : DB) (u : Nat) (s : Snapshot) (w : Nat) :
    entriesOfUser (setUserSnapshot db u s) w = entriesOfUser db w := rfl

theorem entriesOfUser_setSnapshotInactive (db : DB) (u w : Nat) :
    entriesOfUser (setSnapshotInactive db u) w = entriesOfUser db w := rfl

theorem entryIds_setUserSnapshot (db : DB) (u : Nat) (s : Snapshot) :
    entryIds (setUserSnapshot db u s) = entryIds db := rfl

theorem entryIds_setSnapshotInactive (db : DB) (u : Nat) :
    entryIds (setSnapshotInactive db u) = entryIds db := rfl

theorem processExpired_plans (db : DB) (t : Int) (e : QEntry) :
    (processExpired db t e).1.plans = db.plans := by
  simp only [processExpired]
  cases hfind : findNextPending (saveEntry db { e with status := QStatus.completed }) e with
  | none => simp only [hfind]; rfl
  | some nx =>
    cases hplan : findPlan (saveEntry db { e with status := QStatus.completed }).plans
        nx.planId with
    | none => simp only [hfind, hplan]; rfl
    | some p => simp only [hfind, hplan]; rfl

theorem processExpired_nextId (db : DB) (t : Int) (e : QEntry) :
    (processExpired db t e).1.nextEntryId = db.nextEntryId := by
  simp only [processExpired]
  cases hfind : findNextPending (saveEntry db { e with status := QStatus.completed }) e with
  | none => simp only [hfind]; rfl
  | some nx =>
    cases hplan : findPlan (saveEntry db { e with status := QStatus.completed }).plans
        nx.planId with
    | none => simp only [hfind, hplan]; rfl
    | some p => simp only [hfind, hplan]; rfl

theorem processExpired_payments (db : DB) (t : Int) (e : QEntry) :
    (processExpired db t e).1.payments = db.payments := by
  simp only [processExpired]
  cases hfind : findNextPending (saveEntry db { e with status := QStatus.completed }) e with
  | none => simp only [hfind]; rfl
  | some nx =>
    cases hplan : findPlan (saveEntry db { e with status := QStatus.completed }).plans
        nx.planId with
    | none => simp only [hfind, hplan]; rfl
    | some p => simp only [hfind, hplan]; rfl

theorem processExpired_entryIds (db : DB) (t : Int) (e : QEntry) :
    entryIds (processExpired db t e).1 = entryIds db := by
  simp only [processExpired]
  cases hfind : findNextPending (saveEntry db { e with status := QStatus.completed }) e with
  | none => simp only [hfind, entryIds_setSnapshotInactive, entryIds_saveEntry]
  | some nx =>
    cases hplan : findPlan (saveEntry db { e with status := QStatus.completed }).plans
        nx.planId with
    | none => simp only [hfind, hplan, entryIds_saveEntry]
    | some p => simp only [hfind, hplan, entryIds_setUserSnapshot, entryIds_saveEntry]

theorem processExpired_users_frame (db : DB) (t : Int) (e : QEntry) (w : Nat)
    (hw : w ≠ e.user) :
    findUserRec (processExpired db t e).1.users w = findUserRec db.users w := by
  simp only [processExpired]
  cases hfind : findNextPending (saveEntry db { e with status := QStatus.completed }) e with
  | none =>
    simp only [hfind, setSnapshotInactive_users, saveEntry_users]
    exact findUserRec_update_ne _ _ _ _ hw
  | some nx =>
    cases hplan : findPlan (saveEntry db { e with status := QStatus.completed }).plans
        nx.planId with
    | none => simp only [hfind, hplan, saveEntry_users]
    | some p =>
      simp only [hfind, hplan, setUserSnapshot_users, saveEntry_users]
      exact findUserRec_update_ne _ _ _ _ hw

theorem processExpired_entries_frame (db : DB) (t : Int) (e : QEntry) (w : Nat)
    (hnd : (entryIds db).Nodup) (he : e ∈ db.entries) (hw : w ≠ e.user) :
    entriesOfUser (processExpired db t e).1 w = entriesOfUser db w := by
  have hstep1 : entriesOfUser (saveEntry db { e with status := QStatus.completed }) w
      = entriesOfUser db w :=
    filter_user_saveEntry db e _ w hnd he rfl rfl hw
  simp only [processExpired]
  cases hfind : findNextPending (saveEntry db { e with status := QStatus.completed }) e with
  | none =>
    simp only [hfind, entriesOfUser_setSnapshotInactive]
    exact hstep1
  | some nx =>
    cases hplan : findPlan (saveEntry db { e with status := QStatus.completed }).plans
        nx.planId with
    | none => simp only [hfind, hplan]; exact hstep1
    | some p =>
      obtain ⟨hnx_mem, hnx_user, _, _⟩ := findNextPending_props _ e nx hfind
      have hnd1 : (entryIds (saveEntry db { e with status := QStatus.completed })).Nodup := by
        rw [entryIds_saveEntry]; exact hnd
      have hw2 : w ≠ nx.user := by rw [hnx_user]; exact hw
      have hstep2 := filter_user_saveEntry
        (saveEntry db { e with status := QStatus.completed }) nx
        { nx with status := QStatus.active, activationDate := some t,
                  expiryDate := some (t + p.durationDays * minutesPerDay) }
        w hnd1 hnx_mem rfl rfl hw2
      simp only [hfind, hplan, entriesOfUser_setUserSnapshot]
      rw [hstep2]
      exact hstep1

theorem processExpired_none_eq (db : DB) (t : Int) (e : QEntry)
    (hfind : findNextPending (saveEntry db { e with status := QStatus.completed }) e = none) :
    processExpired db t e =
      (setSnapshotInactive (saveEntry db { e with status := QStatus.completed }) e.user,
        true) := by
  simp only [processExpired, hfind]

theorem processExpired_abort_eq (db : DB) (t : Int) (e nx : QEntry)
    (hfind : findNextPending (saveEntry db { e with status := QStatus.completed }) e = some nx)
    (hplan : findPlan (saveEntry db { e with status := QStatus.completed }).plans
        nx.planId = none) :
    processExpired db t e = (saveEntry db { e with status := QStatus.completed }, false) := by
  simp only [processExpired, hfind, hplan]

theorem processExpired_promote_eq (db : DB) (t : Int) (e nx : QEntry) (p : Plan)
    (hfind : findNextPending (saveEntry db { e with status := QStatus.completed }) e = some nx)
    (hplan : findPlan (saveEntry db { e with status := QStatus.completed }).plans
        nx.planId = some p) :
    processExpired db t e =
      (setUserSnapshot
        (saveEntry (saveEntry db { e with status := QStatus.completed })
          { nx with status := QStatus.active, activationDate := some t,
                    expiryDate := some (t + p.durationDays * minutesPerDay) })
        e.user (mkSnapshot p t (t + p.durationDays * minutesPerDay)), true) := by
  simp only [processExpired, hfind, hplan]

theorem activeCount_setUserSnapshot (db : DB) (u : Nat) (s : Snapshot) (w : Nat) :
    activeCount (setUserSnapshot db u s) w = activeCount db w := rfl

theorem processExpired_step (db : DB) (t : Int) (e : QEntry)
    (hwf : WF db) (he : e ∈ db.entries) (ha : e.status = QStatus.active) :
    WF (processExpired db t e).1
    ∧ (PosOK db → PosOK (processExpired db t e).1)
    ∧ (PlansOK db → PlansOK (processExpired db t e).1 ∧ (processExpired db t e).2 = true) := by
  obtain ⟨hnd, hlt, hact⟩ := hwf
  have hnd1 : (entryIds (saveEntry db { e with status := QStatus.completed })).Nodup := by
    rw [entryIds_saveEntry]; exact hnd
  have hlt1 : ∀ x ∈ (saveEntry db { e with status := QStatus.completed }).entries,
      x.entryId < db.nextEntryId := by
    intro x hx
    rcases mem_saveEntry_cases db _ x hx with hxv | hx'
    · subst hxv; exact hlt e he
    · exact hlt x hx'
  have hcnt1 : ∀ w, activeCount (saveEntry db { e with status := QStatus.completed }) w +
      (if (e.user == w && e.status == QStatus.active) then 1 else 0) = activeCount db w := by
    intro w
    have h := countP_saveEntry db e { e with status := QStatus.completed }
      (fun x => x.user == w && x.status == QStatus.active) hnd he rfl
    simpa using h
  have hactle1 : ∀ w, activeCount (saveEntry db { e with status := QStatus.completed }) w ≤
      activeCount db w := fun w => Nat.le.intro (hcnt1 w)
  have hacteq1 : activeCount (saveEntry db { e with status := QStatus.completed }) e.user = 0 := by
    have h := hcnt1 e.user
    have hpe : (e.user == e.user && e.status == QStatus.active) = true := by simp [ha]
    rw [hpe] at h
    simp only [if_true] at h
    have hge : 0 < activeCount db e.user := by
      have : 0 < db.entries.countP (fun x => x.user == e.user && x.status == QStatus.active) :=
        List.countP_pos_iff.mpr ⟨e, he, hpe⟩
      exact this
    have hle := hact e.user
    omega
  have hup1 : ∀ (q : QEntry → Bool), (∀ x y : QEntry, x.user = y.user →
        x.queuePosition = y.queuePosition → q x = q y) →
      (saveEntry db { e with status := QStatus.completed }).entries.countP q =
        db.entries.countP q := by
    intro q hq
    have h := countP_saveEntry db e { e with status := QStatus.completed } q hnd he rfl
    have hqe : q { e with status := QStatus.completed } = q e := hq _ _ rfl rfl
    rw [hqe] at h
    exact Nat.add_right_cancel h
  have hplans1 : PlansOK db →
      PlansOK (saveEntry db { e with status := QStatus.completed }) := by
    intro hp x hx
    rcases mem_saveEntry_cases db _ x hx with hxv | hx'
    · subst hxv; exact hp e he
    · exact hp x hx'
  cases hfind : findNextPending (saveEntry db { e with status := QStatus.completed }) e with
  | none =>
    rw [processExpired_none_eq db t e hfind]
    refine ⟨⟨?_, ?_, ?_⟩, ?_, ?_⟩
    · exact hnd1
    · exact hlt1
    · exact fun w => le_trans (hactle1 w) (hact w)
    · intro hp u k
      have h1 : posCount (setSnapshotInactive
          (saveEntry db { e with status := QStatus.completed }) e.user) u k = posCount db u k := by
        apply hup1
        intro x y hxy hpq
        simp [hxy, hpq]
      have h2 : userCount (setSnapshotInactive
          (saveEntry db { e with status := QStatus.completed }) e.user) u = userCount db u := by
        apply hup1
        intro x y hxy _
        simp [hxy]
      rw [h1, h2]
      exact hp u k
    · intro hp
      exact ⟨hplans1 hp, rfl⟩
  | some nx =>
    obtain ⟨hnx_mem, hnx_user, hnx_pending, hnx_pos⟩ :=
      findNextPending_props _ e nx hfind
    cases hplan : findPlan (saveEntry db { e with status := QStatus.completed }).plans
        nx.planId with
    | none =>
      rw [processExpired_abort_eq db t e nx hfind hplan]
      refine ⟨⟨hnd1, hlt1, fun w => le_trans (hactle1 w) (hact w)⟩, ?_, ?_⟩
      · intro hp u k
        have h1 : posCount (saveEntry db { e with status := QStatus.completed }) u k =
            posCount db u k := by
          apply hup1
          intro x y hxy hpq
          simp [hxy, hpq]
        have h2 : userCount (saveEntry db { e with status := QStatus.completed }) u =
            userCount db u := by
          apply hup1
          intro x y hxy _
          simp [hxy]
        rw [h1, h2]
        exact hp u k
      · intro hp
        have := hplans1 hp nx hnx_mem
        rw [hplan] at this
        simp at this
    | some p =>
      rw [processExpired_promote_eq db t e nx p hfind hplan]
      have hcnt2 : ∀ w, activeCount (saveEntry
            (saveEntry db { e with status := QStatus.completed })
            { nx with status := QStatus.active, activationDate := some t,
                      expiryDate := some (t + p.durationDays * minutesPerDay) }) w +
          (if (nx.user == w && nx.status == QStatus.active) then 1 else 0) =
          activeCount (saveEntry db { e with status := QStatus.completed }) w +
          (if (nx.user == w) then 1 else 0) := by
        intro w
        have h := countP_saveEntry (saveEntry db { e with status := QStatus.completed }) nx
          { nx with status := QStatus.active, activationDate := some t,
                    expiryDate := some (t + p.durationDays * minutesPerDay) }
          (fun x => x.user == w && x.status == QStatus.active) hnd1 hnx_mem rfl
        simpa using h
      have hpendfalse : ∀ w, (nx.user == w && nx.status == QStatus.active) = false := by
        intro w
        simp [hnx_pending]
      refine ⟨⟨?_, ?_, ?_⟩, ?_, ?_⟩
      · rw [show entryIds (setUserSnapshot (saveEntry
            (saveEntry db { e with status := QStatus.completed })
            { nx with status := QStatus.active, activationDate := some t,
                      expiryDate := some (t + p.durationDays * minutesPerDay) })
            e.user (mkSnapshot p t (t + p.durationDays * minutesPerDay))) =
            entryIds (saveEntry (saveEntry db { e with status := QStatus.completed })
            { nx with status := QStatus.active, activationDate := some t,
                      expiryDate := some (t + p.durationDays * minutesPerDay) }) from rfl]
        rw [entryIds_saveEntry]
        exact hnd1
      · intro x hx
        rcases mem_saveEntry_cases _ _ x hx with hxv | hx'
        · subst hxv; exact hlt1 nx hnx_mem
        · exact hlt1 x hx'
      · intro w
        rw [show activeCount ((setUserSnapshot (saveEntry
            (saveEntry db { e with status := QStatus.completed })
            { nx with status := QStatus.active, activationDate := some t,
                      expiryDate := some (t + p.durationDays * minutesPerDay) })
            e.user (mkSnapshot p t (t + p.durationDays * minutesPerDay)), true)).1 w =
            activeCount (saveEntry (saveEntry db { e with status := QStatus.completed })
            { nx with status := QStatus.active, activationDate := some t,
                      expiryDate := some (t + p.durationDays * minutesPerDay) }) w from rfl]
        have h2 := hcnt2 w
        rw [hpendfalse w] at h2
        simp only [Bool.false_eq_true, if_false, Nat.add_zero] at h2
        by_cases hwu : nx.user = w
        · have hbw : (nx.user == w) = true := by simp [hwu]
          rw [hbw] at h2
          simp only [if_true] at h2
          have h0 : activeCount (saveEntry db { e with status := QStatus.completed }) w = 0 := by
            rw [← hwu, hnx_user]
            exact hacteq1
          omega
        · have hbw : (nx.user == w) = false := by simp [hwu]
          rw [hbw] at h2
          simp only [Bool.false_eq_true, if_false, Nat.add_zero] at h2
          rw [h2]
          exact le_trans (hactle1 w) (hact w)
      · intro hp u k
        have huser : ∀ (q : QEntry → Bool), (∀ x y : QEntry, x.user = y.user →
              x.queuePosition = y.queuePosition → q x = q y) →
            (saveEntry (saveEntry db { e with status := QStatus.completed })
              { nx with status := QStatus.active, activationDate := some t,
                        expiryDate := some (t + p.durationDays * minutesPerDay) }).entries.countP q =
              db.entries.countP q := by
          intro q hq
          have h := countP_saveEntry (saveEntry db { e with status := QStatus.completed }) nx
            { nx with status := QStatus.active, activationDate := some t,
                      expiryDate := some (t + p.durationDays * minutesPerDay) } q hnd1 hnx_mem rfl
          have hqe : q { nx with status := QStatus.active, activationDate := some t, expiryDate := some (t + p.durationDays * minutesPerDay) } = q nx :=
            hq _ _ rfl rfl
          rw [hqe] at h
          have h' := Nat.add_right_cancel h
          rw [h']
          exact hup1 q hq
        have h1 : posCount (setUserSnapshot (saveEntry
            (saveEntry db { e with status := QStatus.completed })
            { nx with status := QStatus.active, activationDate := some t,
                      expiryDate := some (t + p.durationDays * minutesPerDay) })
            e.user (mkSnapshot p t (t + p.durationDays * minutesPerDay))) u k =
            posCount db u k := by
          apply huser
          intro x y hxy hpq
          simp [hxy, hpq]
        have h2 : userCount (setUserSnapshot (saveEntry
            (saveEntry db { e with status := QStatus.completed })
            { nx with status := QStatus.active, activationDate := some t,
                      expiryDate := some (t + p.durationDays * minutesPerDay) })
            e.user (mkSnapshot p t (t + p.durationDays * minutesPerDay))) u =
            userCount db u := by
          apply huser
          intro x y hxy _
          simp [hxy]
        rw [h1, h2]
        exact hp u k
      · intro hp
        refine ⟨?_, rfl⟩
        intro x hx
        rcases mem_saveEntry_cases _ _ x hx with hxv | hx'
        · subst hxv
          exact hplans1 hp nx hnx_mem
        · exact hplans1 hp x hx'

theorem sweepList_inv (t : Int) : ∀ (L : List QEntry) (db : DB),
    WF db →
    (∀ x ∈ L, x ∈ db.entries ∧ x.status = QStatus.active) →
    L.Pairwise (fun a b => a.user ≠ b.user) →
    WF (sweepExpiredList t db L).1 ∧
    (PosOK db → PosOK (sweepExpiredList t db L).1) ∧
    (PlansOK db → PlansOK (sweepExpiredList t db L).1 ∧ (sweepExpiredList t db L).2 = true) ∧
    (∀ w, (∀ x ∈ L, x.user ≠ w) →
      entriesOfUser (sweepExpiredList t db L).1 w = entriesOfUser db w ∧
      findUserRec (sweepExpiredList t db L).1.users w = findUserRec db.users w) := by
  intro L
  induction L with
  | nil =>
    intro db hwf _ _
    exact ⟨hwf, fun h => h, fun h => ⟨h, rfl⟩, fun w _ => ⟨rfl, rfl⟩⟩
  | cons e rest ih =>
    intro db hwf hmem hpw
    obtain ⟨he, ha⟩ := hmem e (List.mem_cons_self e rest)
    have hstep := processExpired_step db t e hwf he ha
    have hpw' := List.pairwise_cons.mp hpw
    cases hpe : processExpired db t e with
    | mk db1 ok =>
      have h1 : (processExpired db t e).1 = db1 := by rw [hpe]
      cases ok with
      | true =>
        have hred : sweepExpiredList t db (e :: rest) = sweepExpiredList t db1 rest := by
          simp only [sweepExpiredList, hpe]
        rw [hred]
        have hwf1 : WF db1 := h1 ▸ hstep.1
        have hmem1 : ∀ x ∈ rest, x ∈ db1.entries ∧ x.status = QStatus.active := by
          intro x hx
          obtain ⟨hxdb, hxact⟩ := hmem x (List.mem_cons_of_mem e hx)
          have hxu : x.user ≠ e.user := Ne.symm (hpw'.1 x hx)
          have hframe := processExpired_entries_frame db t e x.user hwf.nodupIds he hxu
          rw [h1] at hframe
          have hx1 : x ∈ entriesOfUser db x.user :=
            (mem_entriesOfUser_iff db x x.user).mpr ⟨hxdb, rfl⟩
          rw [← hframe] at hx1
          exact ⟨((mem_entriesOfUser_iff db1 x x.user).mp hx1).1, hxact⟩
        obtain ⟨ihwf, ihpos, ihplans, ihframe⟩ := ih db1 hwf1 hmem1 hpw'.2
        refine ⟨ihwf, ?_, ?_, ?_⟩
        · intro hp
          exact ihpos (h1 ▸ (hstep.2.1 hp))
        · intro hp
          have htmp := hstep.2.2 hp
          rw [hpe] at htmp
          exact ihplans htmp.1
        · intro w hw
          have hwe : w ≠ e.user := Ne.symm (hw e (List.mem_cons_self e rest))
          have hf1 := processExpired_entries_frame db t e w hwf.nodupIds he hwe
          have hf2 := processExpired_users_frame db t e w hwe
          rw [h1] at hf1 hf2
          obtain ⟨hg1, hg2⟩ := ihframe w (fun x hx => hw x (List.mem_cons_of_mem e hx))
          exact ⟨hg1.trans hf1, hg2.trans hf2⟩
      | false =>
        have hred : sweepExpiredList t db (e :: rest) = (db1, false) := by
          simp only [sweepExpiredList, hpe]
        rw [hred]
        refine ⟨h1 ▸ hstep.1, fun hp => h1 ▸ (hstep.2.1 hp), ?_, ?_⟩
        · intro hp
          have htmp := hstep.2.2 hp
          rw [hpe] at htmp
          exact absurd htmp.2 (by simp)
        · intro w hw
          have hwe : w ≠ e.user := Ne.symm (hw e (List.mem_cons_self e rest))
          have hf1 := processExpired_entries_frame db t e w hwf.nodupIds he hwe
          have hf2 := processExpired_users_frame db t e w hwe
          rw [h1] at hf1 hf2
          exact ⟨hf1, hf2⟩

theorem expiredSnap_mem (db : DB) (t : Int) :
    ∀ x ∈ expiredSnap db t, x ∈ db.entries ∧ x.status = QStatus.active := by
  intro x hx
  have hm := List.mem_filter.mp hx
  refine ⟨hm.1, ?_⟩
  have hb := hm.2
  simp only [Bool.and_eq_true, beq_iff_eq] at hb
  exact hb.1

theorem pairwise_user_filter (l : List QEntry) (q : QEntry → Bool)
    (hq : ∀ x, q x = true → x.status = QStatus.active)
    (hcount : ∀ u, l.countP (fun x => x.user == u && x.status == QStatus.active) ≤ 1) :
    (l.filter q).Pairwise (fun a b => a.user ≠ b.user) := by
  induction l with
  | nil => exact List.Pairwise.nil
  | cons h t ih =>
    have hcount' : ∀ u, t.countP (fun x => x.user == u && x.status == QStatus.active) ≤ 1 := by
      intro u
      have hc := hcount u
      rw [List.countP_cons] at hc
      omega
    by_cases hqh : q h = true
    · rw [List.filter_cons_of_pos hqh]
      refine List.Pairwise.cons ?_ (ih hcount')
      intro b hb hub
      have hbt := List.mem_filter.mp hb
      have hpb : (b.user == h.user && b.status == QStatus.active) = true := by
        simp [hub.symm, hq b hbt.2]
      have hph : (h.user == h.user && h.status == QStatus.active) = true := by
        simp [hq h hqh]
      have hpos : 0 < t.countP (fun x => x.user == h.user && x.status == QStatus.active) :=
        List.countP_pos_iff.mpr ⟨b, hbt.1, hpb⟩
      have htot := hcount h.user
      rw [List.countP_cons, hph] at htot
      simp only [if_true] at htot
      omega
    · rw [List.filter_cons_of_neg hqh]
      exact ih hcount'

theorem expiredSnap_pairwise (db : DB) (t : Int) (hwf : WF db) :
    (expiredSnap db t).Pairwise (fun a b => a.user ≠ b.user) := by
  apply pairwise_user_filter
  · intro x hx
    simp only [Bool.and_eq_true, beq_iff_eq] at hx
    exact hx.1
  · exact hwf.activeLe

theorem sweep_inv (db : DB) (t : Int) (hwf : WF db) :
    WF (sweep db t).1 ∧ (PosOK db → PosOK (sweep db t).1) := by
  have h := sweepList_inv t (expiredSnap db t) db hwf (expiredSnap_mem db t)
    (expiredSnap_pairwise db t hwf)
  cases hres : sweepExpiredList t db (expiredSnap db t) with
  | mk db1 ok =>
    have h1 : (sweepExpiredList t db (expiredSnap db t)).1 = db1 := by rw [hres]
    cases ok with
    | true =>
      have hs : sweep db t = (db1, reminderPass db1 t (activeEntries db1)) := by
        simp only [sweep, hres]
      rw [hs]
      exact ⟨h1 ▸ h.1, fun hp => h1 ▸ (h.2.1 hp)⟩
    | false =>
      have hs : sweep db t = (db1, []) := by
        simp only [sweep, hres]
      rw [hs]
      exact ⟨h1 ▸ h.1, fun hp => h1 ▸ (h.2.1 hp)⟩

/-! ## Invariant preservation by the enqueue path -/

theorem findActiveOrPending_none_count (db : DB) (u : Nat)
    (h : findActiveOrPending db u = none) : activeCount db u = 0 := by
  by_cases hf : db.entries.filter (fun e => e.user == u && isActiveOrPending e) = []
  · have hcz : db.entries.countP (fun e => e.user == u && isActiveOrPending e) = 0 := by
      rw [List.countP_eq_length_filter, hf]
      rfl
    have hmono : activeCount db u ≤
        db.entries.countP (fun e => e.user == u && isActiveOrPending e) := by
      apply List.countP_mono_left
      intro a _ hpa
      simp only [Bool.and_eq_true, beq_iff_eq] at hpa
      simp [isActiveOrPending, hpa.1, hpa.2]
    omega
  · obtain ⟨a, ha⟩ := maxByPos_isSome _ hf
    rw [findActiveOrPending] at h
    rw [h] at ha
    exact Option.noConfusion ha

theorem lastEntryOverall_pos (db : DB) (u : Nat) (hpos : PosOK db) :
    (match lastEntryOverall db u with
     | some a => a.queuePosition + 1
     | none => 1) = userCount db u + 1 := by
  by_cases hf : db.entries.filter (fun e => e.user == u) = []
  · have hn : lastEntryOverall db u = none := by
      rw [lastEntryOverall, hf]
      rfl
    rw [hn]
    have hcz : userCount db u = 0 := by
      rw [userCount, List.countP_eq_length_filter, hf]
      rfl
    rw [hcz]
  · obtain ⟨a, ha⟩ := maxByPos_isSome _ hf
    have hsome : lastEntryOverall db u = some a := ha
    rw [hsome]
    obtain ⟨hmem, hmax⟩ := maxByPos_spec _ a ha
    have hau : a.user = u := by
      have hm := (List.mem_filter.mp hmem).2
      simpa using hm
    have hadb : a ∈ db.entries := (List.mem_filter.mp hmem).1
    have hc1 : 0 < posCount db u a.queuePosition :=
      List.countP_pos_iff.mpr ⟨a, hadb, by simp [hau]⟩
    have hposk := hpos u a.queuePosition
    have hrange : 1 ≤ a.queuePosition ∧ a.queuePosition ≤ userCount db u := by
      by_contra hcon
      rw [if_neg hcon] at hposk
      omega
    have hucpos : 0 < userCount db u := lt_of_lt_of_le hrange.1 hrange.2
    have hcn := hpos u (userCount db u)
    rw [if_pos ⟨hucpos, le_refl _⟩] at hcn
    have hcpos : 0 < posCount db u (userCount db u) := by
      rw [hcn]
      omega
    obtain ⟨b, hbdb, hbp⟩ := List.countP_pos_iff.mp hcpos
    simp only [Bool.and_eq_true, beq_iff_eq] at hbp
    have hbf : b ∈ db.entries.filter (fun e => e.user == u) := by
      rw [List.mem_filter]
      exact ⟨hbdb, by simp [hbp.1]⟩
    have hble := hmax b hbf
    rw [hbp.2] at hble
    show a.queuePosition + 1 = userCount db u + 1
    omega

theorem enqueuePrepare_fst (db : DB) (u pid : Nat) (now : Int) :
    (enqueuePrepare db u pid now).1 = markUserActive db u := by
  simp only [enqueuePrepare]
  split
  · rfl
  · split
    · rfl
    · rfl

theorem enqueueCommit_inv (db : DB) (pr : PreparedEntry)
    (hwf : WF db) (hpos : PosOK db)
    (hpr_pos : pr.queuePosition = userCount db pr.userId + 1)
    (hpr_act : pr.status = QStatus.active → activeCount db pr.userId = 0) :
    WF (enqueueCommit db (some pr)) ∧ PosOK (enqueueCommit db (some pr)) := by
  obtain ⟨hnd, hlt, hact⟩ := hwf
  have key : ∀ (db' : DB), db'.entries = db.entries ++
      [{ entryId := db.nextEntryId, user := pr.userId, planId := pr.plan.planId,
         status := pr.status, queuePosition := pr.queuePosition,
         activationDate := some pr.activationDate, expiryDate := some pr.expiryDate,
         paymentId := pr.paymentId }] →
      db'.nextEntryId = db.nextEntryId + 1 →
      WF db' ∧ PosOK db' := by
    intro db' hent hnext
    have hids : entryIds db' = entryIds db ++ [db.nextEntryId] := by
      rw [entryIds, hent, List.map_append]
      rfl
    refine ⟨⟨?_, ?_, ?_⟩, ?_⟩
    · rw [hids, List.nodup_append]
      refine ⟨hnd, List.nodup_singleton _, ?_⟩
      intro a ha hb
      simp only [List.mem_singleton] at hb
      subst hb
      obtain ⟨x, hx, hxa⟩ := List.mem_map.mp ha
      have hxlt := hlt x hx
      have hxa' : x.entryId = db.nextEntryId := hxa
      omega
    · intro x hx
      rw [hent] at hx
      rw [hnext]
      rcases List.mem_append.mp hx with hx1 | hx2
      · have := hlt x hx1
        omega
      · simp only [List.mem_singleton] at hx2
        subst hx2
        show db.nextEntryId < db.nextEntryId + 1
        omega
    · intro w
      have hcount : activeCount db' w = activeCount db w +
          (if (pr.userId == w && pr.status == QStatus.active) then 1 else 0) := by
        unfold activeCount
        rw [hent, List.countP_append]
        simp [List.countP_cons]
      by_cases hs : pr.status = QStatus.active
      · by_cases hw : pr.userId = w
        · have h0 : activeCount db w = 0 := by
            rw [← hw]
            exact hpr_act hs
          have hif : (pr.userId == w && pr.status == QStatus.active) = true := by
            simp [hw, hs]
          rw [hcount, h0, hif]
          simp
        · have hif : (pr.userId == w && pr.status == QStatus.active) = false := by
            simp [hw]
          rw [hcount, hif]
          simpa using hact w
      · have hif : (pr.userId == w && pr.status == QStatus.active) = false := by
          simp [hs]
        rw [hcount, hif]
        simpa using hact w
    · intro u k
      have hposc : posCount db' u k = posCount db u k +
          (if (pr.userId == u && pr.queuePosition == k) then 1 else 0) := by
        unfold posCount
        rw [hent, List.countP_append]
        simp [List.countP_cons]
      have husrc : userCount db' u = userCount db u + (if (pr.userId == u) then 1 else 0) := by
        unfold userCount
        rw [hent, List.countP_append]
        simp [List.countP_cons]
      rw [hposc, husrc]
      have hold := hpos u k
      by_cases hw : pr.userId = u
      · by_cases hk : pr.queuePosition = k
        · have hb1 : (pr.userId == u && pr.queuePosition == k) = true := by
            simp [hw, hk]
          have hb2 : (pr.userId == u) = true := by simp [hw]
          rw [hb1, hb2, hold]
          simp only [eq_self_iff_true, if_true]
          have hk2 : k = userCount db u + 1 := by
            rw [← hk, hpr_pos, hw]
          split_ifs <;> omega
        · have hb1 : (pr.userId == u && pr.queuePosition == k) = false := by
            simp [hk]
          have hb2 : (pr.userId == u) = true := by simp [hw]
          rw [hb1, hb2, hold]
          simp only [Bool.false_eq_true, if_false, eq_self_iff_true, if_true, Nat.add_zero]
          have hk2 : k ≠ userCount db u + 1 := by
            intro hcon
            exact hk (by rw [hpr_pos, hw, hcon])
          split_ifs <;> omega
      · have hb1 : (pr.userId == u && pr.queuePosition == k) = false := by
          simp [hw]
        have hb2 : (pr.userId == u) = false := by simp [hw]
        rw [hb1, hb2, hold]
        simp only [Bool.false_eq_true, if_false, Nat.add_zero]
  simp only [enqueueCommit]
  split
  · exact key _ rfl rfl
  · exact key _ rfl rfl

theorem enqueue_inv (db : DB) (u pid : Nat) (now : Int)
    (hwf : WF db) (hpos : PosOK db) :
    WF (activateAndQueuePlan db u pid now) ∧ PosOK (activateAndQueuePlan db u pid now) := by
  have hwf1 : WF (markUserActive db u) :=
    ⟨hwf.nodupIds, hwf.idsLt, hwf.activeLe⟩
  have hpos1 : PosOK (markUserActive db u) := hpos
  simp only [activateAndQueuePlan, enqueuePrepare]
  cases hpay : findPayment (markUserActive db u) pid with
  | none =>
    simp only [hpay]
    exact ⟨hwf1, hpos1⟩
  | some pay =>
    cases hplan : findPlan (markUserActive db u).plans pay.planId with
    | none =>
      simp only [hpay, hplan]
      exact ⟨hwf1, hpos1⟩
    | some plan =>
      cases haop : findActiveOrPending (markUserActive db u) u with
      | none =>
        simp only [hpay, hplan, haop]
        apply enqueueCommit_inv _ _ hwf1 hpos1
        · exact lastEntryOverall_pos _ u hpos1
        · intro _
          exact findActiveOrPending_none_count _ u haop
      | some aop =>
        simp only [hpay, hplan, haop]
        apply enqueueCommit_inv _ _ hwf1 hpos1
        · exact lastEntryOverall_pos _ u hpos1
        · intro hcontra
          exact QStatus.noConfusion hcontra

theorem runOps_inv : ∀ (ops : List Op) (db : DB), WF db → PosOK db →
    WF (runOps db ops) ∧ PosOK (runOps db ops) := by
  intro ops
  induction ops with
  | nil =>
    intro db hwf hpos
    exact ⟨hwf, hpos⟩
  | cons op rest ih =>
    intro db hwf hpos
    cases op with
    | enq u pid now =>
      have h := enqueue_inv db u pid now hwf hpos
      exact ih _ h.1 h.2
    | sweepAt t =>
      have h := sweep_inv db t hwf
      exact ih _ h.1 (h.2 hpos)

/-- A store with an empty subscription queue (the system's starting state). -/
def initDB (users : List (Nat × UserRec)) (payments : List PaymentRec)
    (plans : List Plan) (nid : Nat) : DB :=
  { entries := [], users := users, payments := payments, plans := plans, nextEntryId := nid }

theorem WF_initial (users : List (Nat × UserRec)) (payments : List PaymentRec)
    (plans : List Plan) (nid : Nat) :
    WF (initDB users payments plans nid) := by
  refine ⟨List.nodup_nil, ?_, ?_⟩
  · intro e he
    simp [initDB] at he
  · intro u
    exact Nat.zero_le 1

theorem PosOK_initial (users : List (Nat × UserRec)) (payments : List PaymentRec)
    (plans : List Plan) (nid : Nat) :
    PosOK (initDB users payments plans nid) := by
  intro u k
  have h1 : posCount (initDB users payments plans nid) u k = 0 := rfl
  have h2 : userCount (initDB users payments plans nid) u = 0 := rfl
  rw [h1, h2]
  split_ifs with h
  · omega
  · rfl

/-- C2: for every user, after any sequence of enqueue (`activateAndQueuePlan`)
and scheduler-sweep (`checkExpiriesAndReminders`) operations starting from a
store with no `SubscriptionQueue` entries, the number of that user's entries
with `status = 'active'` is at most 1 (0 or 1). -/
theorem activeCount_le_one_after_runOps (ops : List Op)
    (users : List (Nat × UserRec)) (payments : List PaymentRec)
    (plans : List Plan) (nid : Nat) (u : Nat) :
    activeCount (runOps (initDB users payments plans nid) ops) u ≤ 1 :=
  ((runOps_inv ops _ (WF_initial users payments plans nid)
    (PosOK_initial users payments plans nid)).1).activeLe u

/-- C3 (amended): when the enqueue and sweep operations run sequentially
(no overlap), every user's `queuePosition` values form the contiguous range
`1 .. userCount` with no duplicates — stated through counts: each position in
`1 .. userCount` is held by exactly one entry and every other position by
none. The concurrent half of the original claim is refuted by
`concurrent_enqueue_duplicate_position` below. -/
theorem positions_contiguous_after_runOps (ops : List Op)
    (users : List (Nat × UserRec)) (payments : List PaymentRec)
    (plans : List Plan) (nid : Nat) (u k : Nat) :
    posCount (runOps (initDB users payments plans nid) ops) u k =
      if 1 ≤ k ∧ k ≤ userCount (runOps (initDB users payments plans nid) ops) u
      then 1 else 0 :=
  (runOps_inv ops _ (WF_initial users payments plans nid)
    (PosOK_initial users payments plans nid)).2 u k

/-! ## Concrete sample data for counterexamples and witnesses -/

/-- A weekly plan (7 days, 24-hour reminder lead). -/
def samplePlanA : Plan :=
  { planId := 1, name := 10, tier := 2, durationDays := 7, price := 499,
    maxTargetsVisible := 2, reminderHours := 24 }

/-- A daily plan (1 day, 2-hour reminder lead). -/
def samplePlanB : Plan :=
  { planId := 2, name := 11, tier := 1, durationDays := 1, price := 99,
    maxTargetsVisible := 2, reminderHours := 2 }

/-- The schema-default empty subscription snapshot. -/
def emptySnapshot : Snapshot :=
  { planTier := 0, startDate := none, endDate := none, isActive := false,
    maxTargetsVisible := 2, reminderHours := 2, reminderSent := false }

/-- A user with a registered notification channel. -/
def sampleUser : UserRec :=
  { isActive := true, fcmToken := some 77, subscription := emptySnapshot }

/-- First pending payment of user 1 for plan 1. -/
def racePay1 : PaymentRec :=
  { payId := 1, user := 1, planId := 1, amount := 499, status := PayStatus.pending,
    transactionId := 11, phonepeTransactionId := none }

/-- Second pending payment of user 1 for plan 1. -/
def racePay2 : PaymentRec :=
  { payId := 2, user := 1, planId := 1, amount := 499, status := PayStatus.pending,
    transactionId := 12, phonepeTransactionId := none }

/-- Store with two pending payments for the same user and an empty queue. -/
def raceDB : DB :=
  { entries := [], users := [(1, sampleUser)], payments := [racePay1, racePay2],
    plans := [samplePlanA], nextEntryId := 0 }

/-- C3 (counterexample): `activateAndQueuePlan` has no per-user serialization
point — the queue is read (`findOne().sort({queuePosition: -1})`) and the new
entry created by separate awaited queries, and `subscriptionQueueSchema` has
no unique index on `(user, queuePosition)`. If two payment callbacks for the
same user overlap so that both run their read phase before either commits
(read₁, read₂, write₁, write₂ — a legal interleaving of the two `async`
handlers), both compute `queuePosition = 1` and the store ends with two
entries at position 1, refuting "two concurrent payments for the same user
must not receive the same queuePosition". -/
theorem concurrent_enqueue_duplicate_position :
    ((enqueuePrepare raceDB 1 1 1000).2.map (fun pr => pr.queuePosition) = some 1) ∧
    ((enqueuePrepare (enqueuePrepare raceDB 1 1 1000).1 1 2 1000).2.map
        (fun pr => pr.queuePosition) = some 1) ∧
    posCount (enqueueCommit (enqueueCommit
        (enqueuePrepare (enqueuePrepare raceDB 1 1 1000).1 1 2 1000).1
        (enqueuePrepare raceDB 1 1 1000).2)
      (enqueuePrepare (enqueuePrepare raceDB 1 1 1000).1 1 2 1000).2) 1 1 = 2 := by
  decide

/-- An active entry for user 1 at position 1 (plan A), expiring at time 10000. -/
def activeEntryA : QEntry :=
  { entryId := 0, user := 1, planId := 1, status := QStatus.active,
    queuePosition := 1, activationDate := some 80, expiryDate := some 10000,
    paymentId := 1 }

/-- A pending payment of user 1 for plan B. -/
def payB : PaymentRec :=
  { payId := 2, user := 1, planId := 2, amount := 99, status := PayStatus.pending,
    transactionId := 12, phonepeTransactionId := none }

/-- Store with one active entry for user 1 and a pending payment for plan B. -/
def pendingDB : DB :=
  { entries := [activeEntryA], users := [(1, sampleUser)], payments := [payB],
    plans := [samplePlanA, samplePlanB], nextEntryId := 1 }

/-- C4 (counterexample): enqueueing plan B at time 5000 for a user who
already holds an active entry (expiry 10000) creates the new entry with
`status = 'pending'` but with `activationDate = some 10000` and
`expiryDate = some 11440` ALREADY SET — not left unset (`null`) as the claim
states: the `SubscriptionQueue.create` call at subscription-controller.js
lines 270–278 always passes both dates. -/
theorem enqueue_pending_dates_set_counterexample :
    (activateAndQueuePlan pendingDB 1 2 5000).entries.map
        (fun e => (e.status, e.activationDate, e.expiryDate)) =
      [(QStatus.active, some 80, some 10000),
       (QStatus.pending, some 10000, some 11440)] := by
  decide

/-- C4 (amended): when the user already has an active or pending entry, the
newly created entry has `status = 'pending'`, and its dates are not left
unset but set provisionally: `activationDate` is the later of the current
last active/pending entry's `expiryDate` and now, and `expiryDate` is that
plus the plan's duration (the scheduler recomputes and overwrites both at
promotion time). -/
theorem enqueue_pending_sets_provisional_dates (db : DB) (u pid : Nat) (now : Int)
    (pay : PaymentRec) (plan : Plan) (aop : QEntry)
    (hpay : findPayment db pid = some pay)
    (hplan : findPlan db.plans pay.planId = some plan)
    (haop : findActiveOrPending db u = some aop) :
    (activateAndQueuePlan db u pid now).entries =
      db.entries ++
        [{ entryId := db.nextEntryId, user := u, planId := plan.planId,
           status := QStatus.pending,
           queuePosition := (match lastEntryOverall db u with
                             | some a => a.queuePosition + 1
                             | none => 1),
           activationDate := some (jsLaterOf aop.expiryDate now),
           expiryDate := some (jsLaterOf aop.expiryDate now + plan.durationDays * minutesPerDay),
           paymentId := pay.payId }] := by
  have hpay' : findPayment (markUserActive db u) pid = some pay := hpay
  have hplan' : findPlan (markUserActive db u).plans pay.planId = some plan := hplan
  have haop' : findActiveOrPending (markUserActive db u) u = some aop := haop
  simp only [activateAndQueuePlan, enqueuePrepare, hpay', hplan', haop']
  rfl

/-- C4 (witness): the amended theorem applied at the concrete store
`pendingDB`, the pending payment for plan B, and enqueue time 5000. -/
theorem enqueue_pending_sets_provisional_dates_witness :
    (activateAndQueuePlan pendingDB 1 2 5000).entries =
      pendingDB.entries ++
        [{ entryId := 1, user := 1, planId := 2,
           status := QStatus.pending, queuePosition := 2,
           activationDate := some 10000, expiryDate := some 11440, paymentId := 2 }] := by
  have h := enqueue_pending_sets_provisional_dates pendingDB 1 2 5000 payB samplePlanB
    activeEntryA (by decide) (by decide) (by decide)
  rw [h]
  decide

/-- C1 (the code evaluated at the failing input): `paymentCallback`
(subscription-controller.js lines 152–187) performs no terminal-status check
before reprocessing: after a first successful delivery the payment record is
`completed` (a terminal status) and the queue holds one entry, yet a second
delivery of the very same `PAYMENT_SUCCESS` result for the same
`transactionId` runs `activateAndQueuePlan` again and creates a second
`SubscriptionQueue` entry, instead of being the claimed no-op. -/
theorem paymentCallback_replay_creates_second_entry :
    ((paymentCallback raceDB 11 CallbackCode.paymentSuccess (some 500) 1000).1.payments.map
        (fun p => p.status) = [PayStatus.completed, PayStatus.pending]) ∧
    (paymentCallback raceDB 11 CallbackCode.paymentSuccess (some 500) 1000).1.entries.length = 1 ∧
    (paymentCallback
        (paymentCallback raceDB 11 CallbackCode.paymentSuccess (some 500) 1000).1
        11 CallbackCode.paymentSuccess (some 500) 1000).1.entries.length = 2 := by
  decide

/-! ## Helper lemmas for promotion correctness -/

theorem find?_restrict {α : Type} (p q : α → Bool) (l : List α)
    (himp : ∀ x, p x = true → q x = true) :
    l.find? p = (l.filter q).find? p := by
  induction l with
  | nil => rfl
  | cons a tl ih =>
    by_cases hpa : p a = true
    · rw [List.find?_cons_of_pos _ hpa, List.filter_cons_of_pos (himp a hpa),
        List.find?_cons_of_pos _ hpa]
    · by_cases hqa : q a = true
      · rw [List.find?_cons_of_neg _ hpa, List.filter_cons_of_pos hqa,
          List.find?_cons_of_neg _ hpa]
        exact ih
      · rw [List.find?_cons_of_neg _ hpa, List.filter_cons_of_neg (by simpa using hqa)]
        exact ih

theorem findNextPending_restrict (db : DB) (e : QEntry) :
    findNextPending db e = ((entriesOfUser db e.user).find? (fun x =>
      x.user == e.user && x.status == QStatus.pending
        && x.queuePosition == e.queuePosition + 1)) := by
  unfold findNextPending entriesOfUser
  apply find?_restrict
  intro x hx
  simp only [Bool.and_eq_true] at hx
  exact hx.1.1

theorem findNextPending_eq_of_frame (dbA dbB : DB) (e : QEntry)
    (hf : entriesOfUser dbA e.user = entriesOfUser dbB e.user) :
    findNextPending dbA e = findNextPending dbB e := by
  rw [findNextPending_restrict, findNextPending_restrict, hf]

theorem findNextPending_after_complete (db : DB) (e : QEntry)
    (hnd : (entryIds db).Nodup) (he : e ∈ db.entries) (ha : e.status = QStatus.active) :
    findNextPending (saveEntry db { e with status := QStatus.completed }) e =
      findNextPending db e := by
  have hnd' : (db.entries.map (fun y => y.entryId)).Nodup := hnd
  unfold findNextPending saveEntry
  apply find?_map_congr
  · intro x hx
    by_cases hid : x.entryId = e.entryId
    · have hxe : x = e := key_inj (fun y => y.entryId) db.entries hnd' hx he hid
      subst hxe
      simp [updBy, ha, show (QStatus.completed == QStatus.pending) = false from rfl,
        show (QStatus.active == QStatus.pending) = false from rfl]
    · simp [updBy, hid]
  · intro x hx hpx
    by_cases hid : x.entryId = e.entryId
    · have hxe : x = e := key_inj (fun y => y.entryId) db.entries hnd' hx he hid
      subst hxe
      simp [ha] at hpx
    · simp [updBy, hid]

theorem sweepExpiredList_append (t : Int) (L₁ L₂ : List QEntry) : ∀ (db : DB),
    sweepExpiredList t db (L₁ ++ L₂) =
      (match sweepExpiredList t db L₁ with
       | (db1, true) => sweepExpiredList t db1 L₂
       | (db1, false) => (db1, false)) := by
  induction L₁ with
  | nil =>
    intro db
    rfl
  | cons x rest ih =>
    intro db
    rw [List.cons_append]
    cases hpe : processExpired db t x with
    | mk db1 ok =>
      cases ok with
      | true =>
        have h1 : sweepExpiredList t db (x :: (rest ++ L₂)) =
            sweepExpiredList t db1 (rest ++ L₂) := by
          simp only [sweepExpiredList, hpe]
        have h2 : sweepExpiredList t db (x :: rest) = sweepExpiredList t db1 rest := by
          simp only [sweepExpiredList, hpe]
        rw [h1, h2, ih db1]
      | false =>
        have h1 : sweepExpiredList t db (x :: (rest ++ L₂)) = (db1, false) := by
          simp only [sweepExpiredList, hpe]
        have h2 : sweepExpiredList t db (x :: rest) = (db1, false) := by
          simp only [sweepExpiredList, hpe]
        rw [h1, h2]

theorem sweepExpiredList_plans (t : Int) : ∀ (L : List QEntry) (db : DB),
    (sweepExpiredList t db L).1.plans = db.plans := by
  intro L
  induction L with
  | nil =>
    intro db
    rfl
  | cons x rest ih =>
    intro db
    cases hpe : processExpired db t x with
    | mk db1 ok =>
      have hpl : db1.plans = db.plans := by
        have h := processExpired_plans db t x
        rw [hpe] at h
        exact h
      cases ok with
      | true =>
        have h1 : sweepExpiredList t db (x :: rest) = sweepExpiredList t db1 rest := by
          simp only [sweepExpiredList, hpe]
        rw [h1, ih db1, hpl]
      | false =>
        have h1 : sweepExpiredList t db (x :: rest) = (db1, false) := by
          simp only [sweepExpiredList, hpe]
        rw [h1]
        exact hpl

theorem mem_expiredSnap (db : DB) (t : Int) (e : QEntry) (d : Int)
    (he : e ∈ db.entries) (ha : e.status = QStatus.active)
    (hd : e.expiryDate = some d) (hle : d ≤ t) : e ∈ expiredSnap db t := by
  rw [expiredSnap, List.mem_filter]
  refine ⟨he, ?_⟩
  rw [hd]
  simp [ha, hle]

theorem sweep_fst (db : DB) (t : Int) :
    (sweep db t).1 = (sweepExpiredList t db (expiredSnap db t)).1 := by
  unfold sweep
  cases hfull : sweepExpiredList t db (expiredSnap db t) with
  | mk dbf okf =>
    cases okf
    · simp only [hfull]
    · simp only [hfull]

/-- The document written by the scheduler's promotion branch: the pending
entry made active at sweep time `t` under plan `p`. -/
def promotedEntry (nx : QEntry) (t : Int) (p : Plan) : QEntry :=
  { nx with status := QStatus.active, activationDate := some t,
            expiryDate := some (t + p.durationDays * minutesPerDay) }

/-- C5: for every scheduler sweep at time `t` over a well-formed store whose
queued entries all reference existing plans: an entry that is `active` with
`expiryDate ≤ t` is marked `completed`; when the (unique) `pending` entry at
`queuePosition + 1` for the same user exists, that entry becomes `active`
with `activationDate` = the sweep time and `expiryDate` = sweep time plus its
plan's `durationDays`, and the user's subscription snapshot is overwritten
with that plan's attributes; when no such pending entry exists, the
snapshot's `isActive` is set to `false`. -/
theorem sweep_promotion_correct (db : DB) (t : Int) (e : QEntry) (d : Int)
    (hwf : WF db) (hplansok : PlansOK db)
    (he : e ∈ db.entries) (ha : e.status = QStatus.active)
    (hd : e.expiryDate = some d) (hle : d ≤ t) :
    ({ e with status := QStatus.completed } ∈ (sweep db t).1.entries)
    ∧ (∀ nx p, nx ∈ db.entries → nx.status = QStatus.pending → nx.user = e.user →
        nx.queuePosition = e.queuePosition + 1 →
        (∀ y ∈ db.entries, y.status = QStatus.pending → y.user = e.user →
          y.queuePosition = e.queuePosition + 1 → y = nx) →
        findPlan db.plans nx.planId = some p →
        ({ nx with status := QStatus.active, activationDate := some t,
                   expiryDate := some (t + p.durationDays * minutesPerDay) }
            ∈ (sweep db t).1.entries
         ∧ ∀ ur, findUserRec db.users e.user = some ur →
             findUserRec (sweep db t).1.users e.user =
               some { ur with subscription :=
                        mkSnapshot p t (t + p.durationDays * minutesPerDay) }))
    ∧ ((∀ y ∈ db.entries, ¬(y.status = QStatus.pending ∧ y.user = e.user ∧
          y.queuePosition = e.queuePosition + 1)) →
        ∀ ur, findUserRec db.users e.user = some ur →
          findUserRec (sweep db t).1.users e.user =
            some { ur with subscription :=
                     { ur.subscription with isActive := false } }) := by
  have hnd' : (db.entries.map (fun y => y.entryId)).Nodup := hwf.nodupIds
  have hsnapmem : e ∈ expiredSnap db t := mem_expiredSnap db t e d he ha hd hle
  obtain ⟨s₁, s₂, hdecomp⟩ := List.append_of_mem hsnapmem
  have hpw : (expiredSnap db t).Pairwise (fun a b => a.user ≠ b.user) :=
    expiredSnap_pairwise db t hwf
  have hmemsnap := expiredSnap_mem db t
  rw [hdecomp] at hpw hmemsnap
  rw [List.pairwise_append] at hpw
  obtain ⟨hpw1, hpwc, hcross⟩ := hpw
  rw [List.pairwise_cons] at hpwc
  obtain ⟨hes₂, hpw₂⟩ := hpwc
  have hs₁e : ∀ a ∈ s₁, a.user ≠ e.user := fun a hx =>
    hcross a hx e (List.mem_cons_self _ _)
  have hmems₁ : ∀ x ∈ s₁, x ∈ db.entries ∧ x.status = QStatus.active := fun x hx =>
    hmemsnap x (List.mem_append.mpr (Or.inl hx))
  have hinv₁ := sweepList_inv t s₁ db hwf hmems₁ hpw1
  cases h₁ : sweepExpiredList t db s₁ with
  | mk dbA ok₁ =>
    have hwfA : WF dbA := by
      have h := hinv₁.1
      rw [h₁] at h
      exact h
    have hplA := hinv₁.2.2.1 hplansok
    rw [h₁] at hplA
    have hplansA : PlansOK dbA := hplA.1
    have hok₁ : ok₁ = true := hplA.2
    subst hok₁
    have hfrA := hinv₁.2.2.2 e.user hs₁e
    rw [h₁] at hfrA
    have hfrA1 : entriesOfUser dbA e.user = entriesOfUser db e.user := hfrA.1
    have hfrA2 : findUserRec dbA.users e.user = findUserRec db.users e.user := hfrA.2
    have heA : e ∈ dbA.entries := by
      have hm : e ∈ entriesOfUser db e.user :=
        (mem_entriesOfUser_iff db e e.user).mpr ⟨he, rfl⟩
      rw [← hfrA1] at hm
      exact ((mem_entriesOfUser_iff dbA e e.user).mp hm).1
    have hplansdbA : dbA.plans = db.plans := by
      have h := sweepExpiredList_plans t s₁ db
      rw [h₁] at h
      exact h
    have hfindbridge :
        findNextPending (saveEntry dbA { e with status := QStatus.completed }) e
          = findNextPending db e := by
      rw [findNextPending_after_complete dbA e hwfA.nodupIds heA ha]
      exact findNextPending_eq_of_frame dbA db e hfrA1
    have hstep := processExpired_step dbA t e hwfA heA ha
    have hsnd : (processExpired dbA t e).2 = true := (hstep.2.2 hplansA).2
    have hstepWF : WF (processExpired dbA t e).1 := hstep.1
    have hstepPlans : PlansOK (processExpired dbA t e).1 := (hstep.2.2 hplansA).1
    have hcompmem : { e with status := QStatus.completed } ∈
        (processExpired dbA t e).1.entries := by
      cases hfind : findNextPending (saveEntry dbA { e with status := QStatus.completed }) e with
      | none =>
        rw [processExpired_none_eq dbA t e hfind]
        exact mem_saveEntry_self dbA _ e heA rfl
      | some nx0 =>
        cases hplan0 : findPlan
            (saveEntry dbA { e with status := QStatus.completed }).plans nx0.planId with
        | none =>
          have habort := processExpired_abort_eq dbA t e nx0 hfind hplan0
          rw [habort] at hsnd
          simp at hsnd
        | some p0 =>
          rw [processExpired_promote_eq dbA t e nx0 p0 hfind hplan0]
          obtain ⟨hnx0A1, hnx0u, hnx0s, hnx0pos⟩ := findNextPending_props _ e nx0 hfind
          have hcm1 : ({ e with status := QStatus.completed } : QEntry) ∈
              (saveEntry dbA { e with status := QStatus.completed }).entries :=
            mem_saveEntry_self dbA _ e heA rfl
          have hndA1 : ((saveEntry dbA { e with status := QStatus.completed }).entries.map
              (fun y => y.entryId)).Nodup := by
            have h := entryIds_saveEntry dbA { e with status := QStatus.completed }
            have h' : (entryIds (saveEntry dbA { e with status := QStatus.completed })).Nodup := by
              rw [h]
              exact hwfA.nodupIds
            exact h'
          have hne : ({ e with status := QStatus.completed } : QEntry).entryId ≠
              nx0.entryId := by
            intro hcon
            have hkinj : ({ e with status := QStatus.completed } : QEntry) = nx0 :=
              key_inj (fun y => y.entryId) _ hndA1 hcm1 hnx0A1 hcon
            have hst := congrArg QEntry.status hkinj
            rw [hnx0s] at hst
            exact QStatus.noConfusion hst
          exact mem_saveEntry_of_ne _ _ _ hcm1 hne
    cases hpeA : processExpired dbA t e with
    | mk dbB okB =>
      have hokB : okB = true := by
        rw [hpeA] at hsnd
        exact hsnd
      subst hokB
      have hwfB : WF dbB := by
        rw [hpeA] at hstepWF
        exact hstepWF
      have hplansB : PlansOK dbB := by
        rw [hpeA] at hstepPlans
        exact hstepPlans
      have hcompmemB : { e with status := QStatus.completed } ∈ dbB.entries := by
        rw [hpeA] at hcompmem
        exact hcompmem
      have hmems₂ : ∀ x ∈ s₂, x ∈ dbB.entries ∧ x.status = QStatus.active := by
        intro x hx
        obtain ⟨hxdb, hxact⟩ :=
          hmemsnap x (List.mem_append.mpr (Or.inr (List.mem_cons_of_mem e hx)))
        have hxe : x.user ≠ e.user := Ne.symm (hes₂ x hx)
        have hfrx := hinv₁.2.2.2 x.user
          (fun a hax => hcross a hax x (List.mem_cons_of_mem e hx))
        rw [h₁] at hfrx
        have hxA : x ∈ dbA.entries := by
          have hm : x ∈ entriesOfUser db x.user :=
            (mem_entriesOfUser_iff db x x.user).mpr ⟨hxdb, rfl⟩
          rw [← hfrx.1] at hm
          exact ((mem_entriesOfUser_iff dbA x x.user).mp hm).1
        have hfre := processExpired_entries_frame dbA t e x.user hwfA.nodupIds heA hxe
        rw [hpeA] at hfre
        have hm : x ∈ entriesOfUser dbA x.user :=
          (mem_entriesOfUser_iff dbA x x.user).mpr ⟨hxA, rfl⟩
        rw [← hfre] at hm
        exact ⟨((mem_entriesOfUser_iff dbB x x.user).mp hm).1, hxact⟩
      have hinv₂ := sweepList_inv t s₂ dbB hwfB hmems₂ hpw₂
      have hfr₂ := hinv₂.2.2.2 e.user (fun x hx => Ne.symm (hes₂ x hx))
      have hchain : sweepExpiredList t db (expiredSnap db t) = sweepExpiredList t dbB s₂ := by
        rw [hdecomp, sweepExpiredList_append t s₁ (e :: s₂) db, h₁]
        have hcons : sweepExpiredList t dbA (e :: s₂) = sweepExpiredList t dbB s₂ := by
          simp only [sweepExpiredList, hpeA]
        exact hcons
      have hfinal1 : (sweep db t).1 = (sweepExpiredList t dbB s₂).1 := by
        rw [sweep_fst, hchain]
      have hfrF1 : entriesOfUser (sweep db t).1 e.user = entriesOfUser dbB e.user := by
        rw [hfinal1]
        exact hfr₂.1
      have hfrF2 : findUserRec (sweep db t).1.users e.user = findUserRec dbB.users e.user := by
        rw [hfinal1]
        exact hfr₂.2
      refine ⟨?_, ?_, ?_⟩
      · have hm : ({ e with status := QStatus.completed } : QEntry) ∈ entriesOfUser dbB e.user :=
          (mem_entriesOfUser_iff dbB _ e.user).mpr ⟨hcompmemB, rfl⟩
        rw [← hfrF1] at hm
        exact ((mem_entriesOfUser_iff _ _ e.user).mp hm).1
      · intro nx p hnxmem hnxs hnxu hnxp huniq hplannx
        have hfound : findNextPending
            (saveEntry dbA { e with status := QStatus.completed }) e = some nx := by
          rw [hfindbridge]
          unfold findNextPending
          apply find?_eq_of_unique _ _ nx hnxmem
          · simp [hnxu, hnxs, hnxp]
          · intro b hb hpb
            simp only [Bool.and_eq_true, beq_iff_eq] at hpb
            exact huniq b hb hpb.1.2 hpb.1.1 hpb.2
        have hplanA1 : findPlan
            (saveEntry dbA { e with status := QStatus.completed }).plans nx.planId = some p := by
          have hp1 : (saveEntry dbA { e with status := QStatus.completed }).plans = db.plans :=
            hplansdbA
          rw [hp1, hplannx]
        have hpromote := processExpired_promote_eq dbA t e nx p hfound hplanA1
        rw [hpeA] at hpromote
        have hdbB : dbB = setUserSnapshot
            (saveEntry (saveEntry dbA { e with status := QStatus.completed })
              (promotedEntry nx t p))
            e.user (mkSnapshot p t (t + p.durationDays * minutesPerDay)) := by
          injection hpromote with hh1 hh2
        subst hdbB
        have hnxA : nx ∈ dbA.entries := by
          have hm : nx ∈ entriesOfUser db e.user :=
            (mem_entriesOfUser_iff db nx e.user).mpr ⟨hnxmem, hnxu⟩
          rw [← hfrA1] at hm
          exact ((mem_entriesOfUser_iff dbA nx e.user).mp hm).1
        have hne_id : nx.entryId ≠ ({ e with status := QStatus.completed } : QEntry).entryId := by
          intro hcon
          have hkinj : nx = e := key_inj (fun y => y.entryId) db.entries hnd' hnxmem he hcon
          rw [hkinj] at hnxs
          rw [ha] at hnxs
          exact QStatus.noConfusion hnxs
        have hnxA1 : nx ∈ (saveEntry dbA { e with status := QStatus.completed }).entries :=
          mem_saveEntry_of_ne dbA _ nx hnxA hne_id
        have hnx'mem : promotedEntry nx t p ∈
            (saveEntry (saveEntry dbA { e with status := QStatus.completed })
              (promotedEntry nx t p)).entries :=
          mem_saveEntry_self _ _ nx hnxA1 rfl
        constructor
        · have hmB : promotedEntry nx t p ∈
              entriesOfUser (setUserSnapshot
                (saveEntry (saveEntry dbA { e with status := QStatus.completed })
                  (promotedEntry nx t p))
                e.user (mkSnapshot p t (t + p.durationDays * minutesPerDay))) e.user :=
            (mem_entriesOfUser_iff _ _ e.user).mpr ⟨hnx'mem, hnxu⟩
          rw [← hfrF1] at hmB
          exact ((mem_entriesOfUser_iff _ _ e.user).mp hmB).1
        · intro ur hur
          rw [hfrF2, setUserSnapshot_users, findUserRec_update_self, saveEntry_users,
            saveEntry_users, hfrA2, hur]
          rfl
      · intro hnone ur hur
        have hfoundnone : findNextPending
            (saveEntry dbA { e with status := QStatus.completed }) e = none := by
          rw [hfindbridge]
          unfold findNextPending
          rw [List.find?_eq_none]
          intro y hy hpy
          simp only [Bool.and_eq_true, beq_iff_eq] at hpy
          exact hnone y hy ⟨hpy.1.2, hpy.1.1, hpy.2⟩
        have hnoneeq := processExpired_none_eq dbA t e hfoundnone
        rw [hpeA] at hnoneeq
        have hdbB : dbB = setSnapshotInactive
            (saveEntry dbA { e with status := QStatus.completed }) e.user := by
          injection hnoneeq with hh1 hh2
        rw [hfrF2, hdbB, setSnapshotInactive_users, findUserRec_update_self,
          saveEntry_users, hfrA2, hur]
        rfl

/-- A pending entry for user 1 at position 2 (plan B), queued behind
`activeEntryA`. -/
def pendingEntryB : QEntry :=
  { entryId := 1, user := 1, planId := 2, status := QStatus.pending,
    queuePosition := 2, activationDate := some 10000, expiryDate := some 11440,
    paymentId := 2 }

/-- Store with an active entry at position 1 (expiry 10000) and a pending
entry at position 2 for the same user. -/
def promoDB : DB :=
  { entries := [activeEntryA, pendingEntryB], users := [(1, sampleUser)],
    payments := [payB], plans := [samplePlanA, samplePlanB], nextEntryId := 2 }

/-- C5 (witness): the promotion theorem applied at a concrete store with an
expired active entry at position 1 and a pending entry at position 2, swept
at time 10001. -/
theorem sweep_promotion_correct_witness :
    ({ activeEntryA with status := QStatus.completed } ∈ (sweep promoDB 10001).1.entries)
    ∧ (promotedEntry pendingEntryB 10001 samplePlanB ∈ (sweep promoDB 10001).1.entries)
    ∧ findUserRec (sweep promoDB 10001).1.users 1 =
        some { sampleUser with subscription := mkSnapshot samplePlanB 10001 (10001 + samplePlanB.durationDays * minutesPerDay) } := by
  have hwf : WF promoDB := by
    refine ⟨by decide, by decide, ?_⟩
    intro u
    show List.countP (fun e => e.user == u && e.status == QStatus.active)
      [activeEntryA, pendingEntryB] ≤ 1
    simp only [List.countP_cons, List.countP_nil]
    have h1 : (pendingEntryB.user == u && pendingEntryB.status == QStatus.active) = false := by
      simp [pendingEntryB, show (QStatus.pending == QStatus.active) = false from rfl]
    have h2 : (activeEntryA.user == u && activeEntryA.status == QStatus.active) =
        (activeEntryA.user == u) := by
      simp [activeEntryA]
    rw [h1, h2]
    cases hb : activeEntryA.user == u <;> simp [hb]
  have hpok : PlansOK promoDB := by
    intro e he
    have hcases : e = activeEntryA ∨ e = pendingEntryB := by
      simpa [promoDB] using he
    rcases hcases with hc | hc <;> subst hc <;> decide
  have h := sweep_promotion_correct promoDB 10001 activeEntryA 10000 hwf hpok
    (by decide) (by decide) (by decide) (by decide)
  refine ⟨h.1, ?_, ?_⟩
  · exact (h.2.1 pendingEntryB samplePlanB (by decide) (by decide) (by decide) (by decide)
      (by decide) (by decide)).1
  · exact (h.2.1 pendingEntryB samplePlanB (by decide) (by decide) (by decide) (by decide)
      (by decide) (by decide)).2 sampleUser (by decide)

/-! ## C8: expiry reminders -/

/-- An active entry for user 1 on plan A (24-hour reminder lead) expiring at
time 100000; no sweep in the reminder scenarios reaches that expiry. -/
def remEntry : QEntry :=
  { entryId := 0, user := 1, planId := 1, status := QStatus.active,
    queuePosition := 1, activationDate := some 80, expiryDate := some 100000,
    paymentId := 1 }

/-- Store holding only `remEntry`, its user (with a registered `fcmToken`)
and its plan. -/
def remDB : DB :=
  { entries := [remEntry], users := [(1, sampleUser)], payments := [],
    plans := [samplePlanA], nextEntryId := 1 }

/-- C8 (counterexample): the reminder loop (scheduler-service.js lines
79-96) never reads or writes the Snapshot `reminderSent` flag. At sweep time
`T - 23h45m` (inside the 16-minute window) a reminder is sent, yet the store
- including `user.subscription.reminderSent`, still `false` - is returned
completely unchanged; and two sweeps both inside the window (at `T - 23h55m`
and `T - 23h45m`) send two reminders for the same entry, so no
`reminderSent`-based deduplication exists. -/
theorem reminder_sent_flag_never_set_counterexample :
    ((sweep remDB 98575).2.length = 1)
    ∧ ((sweep remDB 98575).1 = remDB)
    ∧ ((findUserRec (sweep remDB 98575).1.users 1).map
        (fun u => u.subscription.reminderSent) = some false)
    ∧ ((sweep remDB 98565).2.length = 1 ∧ (sweep (sweep remDB 98565).1 98575).2.length = 1) := by
  decide

/-- C8 (amended): for an active entry with a 24-hour reminder lead,
`expiryDate = T`, its plan in the catalog and a user with a registered
notification channel, two consecutive sweeps at `T - 24h` and `T - 23h45m`
do send exactly one reminder in total - but the deduplication comes from the
strict 16-minute window `(T - 24h, T - 24h + 16min)` of
`moment().isBetween`, not from the `reminderSent` flag: the first sweep
sits on the excluded left endpoint and sends nothing, the second sweep
sends the one reminder, and both sweeps leave the store (including the
Snapshot `reminderSent` flag) unchanged. -/
theorem two_sweeps_single_reminder (db : DB) (e : QEntry) (plan : Plan)
    (u : UserRec) (T : Int)
    (hent : db.entries = [e])
    (hst : e.status = QStatus.active)
    (hexp : e.expiryDate = some T)
    (hplan : findPlan db.plans e.planId = some plan)
    (hrh : plan.reminderHours = 24)
    (huser : findUserRec db.users e.user = some u)
    (hfcm : u.fcmToken.isSome) :
    (sweep db (T - 24 * 60)).1 = db
    ∧ (sweep db (T - 24 * 60)).2 = []
    ∧ (sweep db (T - (23 * 60 + 45))).1 = db
    ∧ (sweep db (T - (23 * 60 + 45))).2 = [{ user := e.user, entryId := e.entryId }] := by
  cases hfc : u.fcmToken with
  | none => rw [hfc] at hfcm; exact absurd hfcm (by simp)
  | some tok =>
  have hsnap : ∀ t : Int, t < T → expiredSnap db t = [] := by
    intro t ht
    simp only [expiredSnap, hent, List.filter_cons, List.filter_nil]
    rw [hst, hexp]
    have hd : decide (T ≤ t) = false := decide_eq_false (by omega)
    simp [hd]
  have hact : activeEntries db = [e] := by
    simp only [activeEntries, hent, List.filter_cons, List.filter_nil]
    rw [hst]
    simp
  have hsweep : ∀ t : Int, t < T →
      sweep db t = (db, reminderPass db t [e]) := by
    intro t ht
    unfold sweep
    rw [hsnap t ht]
    show (db, reminderPass db t (activeEntries db)) = _
    rw [hact]
  have hrh24 : (if plan.reminderHours == 0 then (24 : Int) else plan.reminderHours) = 24 := by
    rw [hrh]; decide
  have hrem : ∀ t : Int,
      reminderPass db t [e] =
        if isBetweenExcl (T - 24 * 60) t (T - 24 * 60 + 16) then
          [{ user := e.user, entryId := e.entryId }] else [] := by
    intro t
    simp only [reminderPass, hplan, huser, hfc, hrh24, hexp]
  have h1 : isBetweenExcl (T - 24 * 60) (T - 24 * 60) (T - 24 * 60 + 16) = false := by
    simp only [isBetweenExcl]
    have : decide (T - 24 * 60 < T - 24 * 60) = false := decide_eq_false (by omega)
    simp [this]
  have h2 : isBetweenExcl (T - 24 * 60) (T - (23 * 60 + 45)) (T - 24 * 60 + 16) = true := by
    simp only [isBetweenExcl, Bool.and_eq_true, decide_eq_true_eq]
    omega
  have hlt1 : T - 24 * 60 < T := by omega
  have hlt2 : T - (23 * 60 + 45) < T := by omega
  rw [hsweep _ hlt1, hsweep _ hlt2, hrem, hrem, h1, h2]
  exact ⟨rfl, rfl, rfl, rfl⟩

/-- C8 (witness): the amended two-sweep theorem applied at the concrete
store `remDB` with `T = 100000`. -/
theorem two_sweeps_single_reminder_witness :
    (sweep remDB (100000 - 24 * 60)).1 = remDB
    ∧ (sweep remDB (100000 - 24 * 60)).2 = []
    ∧ (sweep remDB (100000 - (23 * 60 + 45))).1 = remDB
    ∧ (sweep remDB (100000 - (23 * 60 + 45))).2 =
        [{ user := remEntry.user, entryId := remEntry.entryId }] :=
  two_sweeps_single_reminder remDB remEntry samplePlanA sampleUser 100000
    rfl rfl rfl (by decide) rfl rfl (by decide)

/-! ## C7: verifyRefreshToken against the spec taxonomy -/

/-- C7: the source `verifyRefreshToken` (part_006 lines 150-166) agrees with
the decision list written from the spec on every input: `InvalidCredential`
when the cryptographic check (signature key / `exp`) fails, then
`UnknownToken` when no record carries the embedded `jti`, `RevokedToken`
when the record's `revokedAt` is set, `ExpiredToken` when past the record's
`expiresAt`, and on success the decoded payload together with the stored
record. -/
theorem verifyRefreshToken_matches_spec (token : RefreshJwt) (store : List RTRecord)
    (now : Int) :
    verifyRefreshToken token store now = verifyRefreshTokenSpec token store now := by
  simp only [verifyRefreshToken, verifyRefreshTokenSpec]
  by_cases hc : token.secret = refreshSecret ∧ now < token.exp
  · have hd : ¬ (token.secret ≠ refreshSecret ∨ now ≥ token.exp) := by
      push_neg
      exact ⟨hc.1, by omega⟩
    rw [if_neg hd, if_neg (not_not.mpr hc)]
    cases hr : findRT store token.payload.jti with
    | none => rfl
    | some r =>
      cases hrev : r.revokedAt with
      | some v => simp [hrev]
      | none => simp [hrev]
  · have hd : token.secret ≠ refreshSecret ∨ now ≥ token.exp := by
      by_cases hs : token.secret = refreshSecret
      · right
        rcases not_and_or.mp hc with h | h
        · exact absurd hs h
        · omega
      · left
        exact hs
    rw [if_pos hd, if_pos hc]

/-! ## Helper lemmas for token rotation -/

theorem verifyRefreshToken_ok_inv (token : RefreshJwt) (store : List RTRecord)
    (now : Int) (pl : RTPayload) (r : RTRecord)
    (h : verifyRefreshToken token store now = Except.ok (pl, r)) :
    token.secret = refreshSecret ∧ now < token.exp
    ∧ findRT store token.payload.jti = some r
    ∧ r.revokedAt = none ∧ now ≤ r.expiresAt
    ∧ pl = { id := token.payload.id, tokenType := token.payload.tokenType,
             jti := token.payload.jti } := by
  unfold verifyRefreshToken at h
  by_cases hc : token.secret ≠ refreshSecret ∨ now ≥ token.exp
  · rw [if_pos hc] at h
    exact absurd h (by simp)
  · rw [if_neg hc] at h
    push_neg at hc
    cases hr : findRT store token.payload.jti with
    | none =>
      rw [hr] at h
      exact absurd h (by simp)
    | some rec =>
      simp only [hr] at h
      by_cases hrev : rec.revokedAt.isSome
      · rw [if_pos hrev] at h
        exact absurd h (by simp)
      · rw [if_neg hrev] at h
        by_cases hex : now > rec.expiresAt
        · rw [if_pos hex] at h
          exact absurd h (by simp)
        · rw [if_neg hex] at h
          simp only [Except.ok.injEq, Prod.mk.injEq] at h
          obtain ⟨hpl, hrec⟩ := h
          subst hrec
          exact ⟨hc.1, hc.2, rfl, Option.not_isSome_iff_eq_none.mp hrev, by omega, hpl.symm⟩

theorem findRT_saveRT_self (store : List RTRecord) (old upd : RTRecord) (j : Nat)
    (hfind : findRT store j = some old)
    (hrec : upd.recId = old.recId) (hjti : upd.jti = j) :
    findRT (saveRT store upd) j = some upd := by
  have hbu : (upd.jti == j) = true := beq_iff_eq.mpr hjti
  induction store with
  | nil => simp [findRT] at hfind
  | cons y l ih =>
    unfold findRT at hfind ⊢
    unfold saveRT
    rw [List.map_cons]
    by_cases hy : (y.jti == j) = true
    · simp only [List.find?_cons, hy] at hfind
      have hyold : y = old := by injection hfind
      have hkey : updBy (fun x => x.recId) upd.recId upd y = upd :=
        updBy_eq_of_key _ _ _ _ (by rw [hyold, hrec])
      rw [hkey]
      simp [List.find?_cons, hbu]
    · have hyf : (y.jti == j) = false := eq_false_of_ne_true hy
      simp only [List.find?_cons, hyf] at hfind
      by_cases hyk : y.recId = upd.recId
      · have hkey : updBy (fun x => x.recId) upd.recId upd y = upd :=
          updBy_eq_of_key _ _ _ _ hyk
        rw [hkey]
        simp [List.find?_cons, hbu]
      · have hkey : updBy (fun x => x.recId) upd.recId upd y = y :=
          updBy_eq_of_ne _ _ _ _ hyk
        rw [hkey]
        simp only [List.find?_cons, hyf]
        exact ih hfind

theorem findRT_saveRT_none (store : List RTRecord) (upd : RTRecord) (j : Nat)
    (h : ∀ x ∈ store, x.jti ≠ j) (hupd : upd.jti ≠ j) :
    findRT (saveRT store upd) j = none := by
  unfold findRT saveRT
  rw [List.find?_eq_none]
  intro x hx
  obtain ⟨y, hy, rfl⟩ := List.mem_map.mp hx
  unfold updBy
  split
  · simp [hupd]
  · simp [h y hy]

/-! ## C6: refresh-token rotation -/

/-- The `RefreshToken` record created during rotation — the store-independent
record component of `generateRefreshToken`. -/
def rotNewRecord (id : Nat) (meta : ReqMeta) (now : Int) (jti2 recId2 : Nat) : RTRecord :=
  (generateRefreshToken id OwnerType.user meta now jti2 recId2 []).2.1

/-- The signed refresh token returned by the rotation — the store-independent
token component of `generateRefreshToken`. -/
def rotNewToken (id : Nat) (meta : ReqMeta) (now : Int) (jti2 recId2 : Nat) : RefreshJwt :=
  (generateRefreshToken id OwnerType.user meta now jti2 recId2 []).1

/-- The credential store after a completed rotation: the new record appended
by `generateRefreshToken`, then the old record revoked and linked by
`tokenRecord.save()`. -/
def rotTokens2 (store : List RTRecord) (oldRec : RTRecord) (id : Nat)
    (meta : ReqMeta) (now : Int) (jti2 recId2 : Nat) : List RTRecord :=
  saveRT (store ++ [rotNewRecord id meta now jti2 recId2])
    { oldRec with revokedAt := some now, replacedBy := some recId2 }

/-- C6: for a successful rotation by `refreshAccessToken` (verification of
the old token returned `(pl, oldRec)`, a user-type payload, an existing
active user, a fresh `jti`/record id, and a check instant `t2` before both
the old and the new token expiry): the handler returns the new tokens and
the rotated store; the new record already exists in the intermediate store
left by `await generateRefreshToken` while the old record is still present
unrevoked there (persist-before-revoke ordering); on the final store the old
raw token verifies to the `RevokedToken` error, the returned token verifies
successfully to its payload and record, and the old record is stored with
`revokedAt` set and `replacedBy` linking the new record's id. -/
theorem refresh_rotation_correct (db : AuthDB) (token : RefreshJwt)
    (now t2 : Int) (jti2 recId2 : Nat) (meta : ReqMeta)
    (pl : RTPayload) (oldRec : RTRecord) (au : AuthUser)
    (hver : verifyRefreshToken token db.tokens now = Except.ok (pl, oldRec))
    (htype : pl.tokenType = OwnerType.user)
    (huser : findAuthUser db.users pl.id = some au)
    (hact : au.isActive = true)
    (hfresh : ∀ r ∈ db.tokens, r.jti ≠ jti2 ∧ r.recId ≠ recId2)
    (ht1 : t2 < token.exp)
    (ht2 : t2 < now + refreshTTL) :
    refreshAccessToken db token now jti2 recId2 meta =
        Except.ok (generateAccessToken token.payload.id OwnerType.user now,
          rotNewToken token.payload.id meta now jti2 recId2,
          rotNewRecord token.payload.id meta now jti2 recId2,
          { db with tokens := rotTokens2 db.tokens oldRec token.payload.id meta now jti2 recId2 })
    ∧ rotNewRecord token.payload.id meta now jti2 recId2 ∈
        rotationIntermediateStore db token now jti2 recId2 meta
    ∧ oldRec ∈ rotationIntermediateStore db token now jti2 recId2 meta
    ∧ oldRec.revokedAt = none
    ∧ verifyRefreshToken token
        (rotTokens2 db.tokens oldRec token.payload.id meta now jti2 recId2) t2 =
        Except.error VerifyErr.revokedToken
    ∧ verifyRefreshToken (rotNewToken token.payload.id meta now jti2 recId2)
        (rotTokens2 db.tokens oldRec token.payload.id meta now jti2 recId2) t2 =
        Except.ok ((rotNewToken token.payload.id meta now jti2 recId2).payload,
          rotNewRecord token.payload.id meta now jti2 recId2)
    ∧ findRT (rotTokens2 db.tokens oldRec token.payload.id meta now jti2 recId2)
        token.payload.jti =
        some { oldRec with revokedAt := some now, replacedBy := some recId2 } := by
  obtain ⟨hsec, hlt, hfind, hrevnone, hle, hpl⟩ :=
    verifyRefreshToken_ok_inv token db.tokens now pl oldRec hver
  subst hpl
  have hmem : oldRec ∈ db.tokens :=
    List.mem_of_find?_eq_some (hfind : db.tokens.find?
      (fun r => r.jti == token.payload.jti) = some oldRec)
  have holdjti : oldRec.jti = token.payload.jti := by
    have := List.find?_some (hfind : db.tokens.find?
      (fun r => r.jti == token.payload.jti) = some oldRec)
    simpa using this
  have hupd : findRT (rotTokens2 db.tokens oldRec token.payload.id meta now jti2 recId2)
      token.payload.jti =
      some { oldRec with revokedAt := some now, replacedBy := some recId2 } := by
    unfold rotTokens2
    apply findRT_saveRT_self
    · unfold findRT at hfind ⊢
      rw [List.find?_append, hfind]
      rfl
    · rfl
    · exact holdjti
  have hnewfind : findRT (rotTokens2 db.tokens oldRec token.payload.id meta now jti2 recId2)
      jti2 = some (rotNewRecord token.payload.id meta now jti2 recId2) := by
    have hsplit : rotTokens2 db.tokens oldRec token.payload.id meta now jti2 recId2 =
        saveRT db.tokens { oldRec with revokedAt := some now, replacedBy := some recId2 }
          ++ [rotNewRecord token.payload.id meta now jti2 recId2] := by
      unfold rotTokens2 saveRT
      rw [List.map_append]
      simp only [List.map_cons, List.map_nil]
      rw [updBy_eq_of_ne]
      exact Ne.symm (hfresh oldRec hmem).2
    rw [hsplit]
    unfold findRT
    rw [List.find?_append]
    have hpref : (saveRT db.tokens
        { oldRec with revokedAt := some now, replacedBy := some recId2 }).find?
        (fun r => r.jti == jti2) = none :=
      findRT_saveRT_none db.tokens _ jti2 (fun x hx => (hfresh x hx).1) (hfresh oldRec hmem).1
    rw [hpref]
    have hbn : ((rotNewRecord token.payload.id meta now jti2 recId2).jti == jti2) = true :=
      beq_iff_eq.mpr rfl
    simp [List.find?_cons, hbn]
  have htype' : token.payload.tokenType = OwnerType.user := htype
  have huser' : findAuthUser db.users token.payload.id = some au := huser
  refine ⟨?_, ?_, ?_, hrevnone, ?_, ?_, hupd⟩
  · simp [refreshAccessToken, hver, htype', huser', hact, rotNewToken, rotNewRecord,
      rotTokens2, generateRefreshToken]
  · simp [rotationIntermediateStore, generateRefreshToken, rotNewRecord]
  · simp only [rotationIntermediateStore, generateRefreshToken]
    exact List.mem_append_left _ hmem
  · unfold verifyRefreshToken
    rw [if_neg (by push_neg; exact ⟨hsec, by omega⟩)]
    rw [hupd]
    rfl
  · unfold verifyRefreshToken
    have hc1 : ¬((rotNewToken token.payload.id meta now jti2 recId2).secret ≠ refreshSecret
        ∨ t2 ≥ (rotNewToken token.payload.id meta now jti2 recId2).exp) := by
      push_neg
      refine ⟨rfl, ?_⟩
      show t2 < now + refreshTTL
      exact ht2
    rw [if_neg hc1]
    have hj2 : (rotNewToken token.payload.id meta now jti2 recId2).payload.jti = jti2 := rfl
    simp only [hj2, hnewfind]
    have hrevN : (rotNewRecord token.payload.id meta now jti2 recId2).revokedAt.isSome
        = false := rfl
    rw [if_neg (by rw [hrevN]; exact Bool.false_ne_true)]
    have hexpN : (rotNewRecord token.payload.id meta now jti2 recId2).expiresAt
        = now + refreshTTL := rfl
    rw [if_neg (by rw [hexpN]; omega)]
    rfl

/-- A stored refresh token for user 1 (`jti` 5, record id 3), unrevoked. -/
def authOldRec : RTRecord :=
  { recId := 3, jti := 5, user := 1, userModel := OwnerType.user, expiresAt := 50000,
    createdAt := 0, revokedAt := none, replacedBy := none, ip := none, userAgent := none }

/-- The raw refresh token matching `authOldRec`. -/
def authTok : RefreshJwt :=
  { payload := { id := 1, tokenType := OwnerType.user, jti := 5 },
    exp := 50000, secret := refreshSecret }

/-- Auth store with one live refresh token and its active user. -/
def authDB0 : AuthDB :=
  { tokens := [authOldRec], users := [(1, { isActive := true })] }

/-- Issuance metadata with no ip or user agent. -/
def noMeta : ReqMeta := { ip := none, userAgent := none }

/-- C6 (witness): the rotation theorem applied at the one-token store
`authDB0`, rotating at time 100 with fresh `jti` 9 and record id 7, checking
both tokens at time 200. -/
theorem refresh_rotation_correct_witness :
    refreshAccessToken authDB0 authTok 100 9 7 noMeta =
        Except.ok (generateAccessToken 1 OwnerType.user 100,
          rotNewToken 1 noMeta 100 9 7,
          rotNewRecord 1 noMeta 100 9 7,
          { authDB0 with tokens := rotTokens2 authDB0.tokens authOldRec 1 noMeta 100 9 7 })
    ∧ rotNewRecord 1 noMeta 100 9 7 ∈ rotationIntermediateStore authDB0 authTok 100 9 7 noMeta
    ∧ authOldRec ∈ rotationIntermediateStore authDB0 authTok 100 9 7 noMeta
    ∧ authOldRec.revokedAt = none
    ∧ verifyRefreshToken authTok (rotTokens2 authDB0.tokens authOldRec 1 noMeta 100 9 7) 200 =
        Except.error VerifyErr.revokedToken
    ∧ verifyRefreshToken (rotNewToken 1 noMeta 100 9 7)
        (rotTokens2 authDB0.tokens authOldRec 1 noMeta 100 9 7) 200 =
        Except.ok ((rotNewToken 1 noMeta 100 9 7).payload, rotNewRecord 1 noMeta 100 9 7)
    ∧ findRT (rotTokens2 authDB0.tokens authOldRec 1 noMeta 100 9 7) 5 =
        some { authOldRec with revokedAt := some 100, replacedBy := some 7 } :=
  refresh_rotation_correct authDB0 authTok 100 200 9 7 noMeta
    { id := 1, tokenType := OwnerType.user, jti := 5 } authOldRec { isActive := true }
    rfl rfl rfl rfl (by decide) (by decide) (by decide)

/-! ## C9: logout -/

/-- C9: `logout` (auth-controller.js lines 156-172) gives the caller no way
to distinguish token states: it always returns the success response; when
verification of the presented token fails (unknown, revoked, expired or
cryptographically invalid) the store is returned unchanged; and on a valid
unrevoked token the record is stored with `revokedAt = now`. -/
theorem logout_always_success (db : AuthDB) (token : RefreshJwt) (now : Int) :
    (logout db token now).1 = true
    ∧ (∀ e, verifyRefreshToken token db.tokens now = Except.error e →
        (logout db token now).2 = db)
    ∧ (∀ pl r, verifyRefreshToken token db.tokens now = Except.ok (pl, r) →
        findRT (logout db token now).2.tokens token.payload.jti =
          some { r with revokedAt := some now }) := by
  refine ⟨?_, ?_, ?_⟩
  · cases hv : verifyRefreshToken token db.tokens now with
    | error e => simp [logout, hv]
    | ok pr => simp [logout, hv]
  · intro e hv
    simp [logout, hv]
  · intro pl r hv
    obtain ⟨hsec, hlt, hfind, hrevnone, hle, hpl⟩ :=
      verifyRefreshToken_ok_inv token db.tokens now pl r hv
    simp only [logout, hv]
    apply findRT_saveRT_self db.tokens r { r with revokedAt := some now }
      token.payload.jti hfind rfl
    have := List.find?_some (hfind : db.tokens.find?
      (fun x => x.jti == token.payload.jti) = some r)
    simpa using this

/-- C9 (witness): logging out the live token of `authDB0` at time 200
returns success and stores the record revoked at 200. -/
theorem logout_always_success_witness :
    (logout authDB0 authTok 200).1 = true
    ∧ findRT (logout authDB0 authTok 200).2.tokens 5 =
        some { authOldRec with revokedAt := some 200 } :=
  ⟨(logout_always_success authDB0 authTok 200).1,
   (logout_always_success authDB0 authTok 200).2.2
     { id := 1, tokenType := OwnerType.user, jti := 5 } authOldRec rfl⟩

/-! ## C10: issuance round-trip -/

/-- C10: `generateRefreshToken` (part_006 lines 128-143) persists a record
whose `jti` is the one embedded in the signed token and whose `expiresAt` is
the token's `exp` claim, with `revokedAt` null; verifying the returned token
against the updated store before expiry succeeds and returns exactly that
payload and record. -/
theorem generateRefreshToken_roundtrip (store : List RTRecord) (id : Nat)
    (t : OwnerType) (meta : ReqMeta) (now t2 : Int) (jti recId : Nat)
    (hfresh : ∀ r ∈ store, r.jti ≠ jti)
    (ht : t2 < now + refreshTTL) :
    (generateRefreshToken id t meta now jti recId store).2.1.jti =
      (generateRefreshToken id t meta now jti recId store).1.payload.jti
    ∧ (generateRefreshToken id t meta now jti recId store).2.1.expiresAt =
        (generateRefreshToken id t meta now jti recId store).1.exp
    ∧ (generateRefreshToken id t meta now jti recId store).2.1.revokedAt = none
    ∧ verifyRefreshToken (generateRefreshToken id t meta now jti recId store).1
        (generateRefreshToken id t meta now jti recId store).2.2 t2 =
        Except.ok ((generateRefreshToken id t meta now jti recId store).1.payload,
          (generateRefreshToken id t meta now jti recId store).2.1) := by
  refine ⟨rfl, rfl, rfl, ?_⟩
  unfold verifyRefreshToken
  have hc1 : ¬((generateRefreshToken id t meta now jti recId store).1.secret ≠ refreshSecret
      ∨ t2 ≥ (generateRefreshToken id t meta now jti recId store).1.exp) := by
    push_neg
    refine ⟨rfl, ?_⟩
    show t2 < now + refreshTTL
    exact ht
  rw [if_neg hc1]
  have hfRT : findRT (generateRefreshToken id t meta now jti recId store).2.2
      (generateRefreshToken id t meta now jti recId store).1.payload.jti =
      some (generateRefreshToken id t meta now jti recId store).2.1 := by
    show (store ++ [(generateRefreshToken id t meta now jti recId store).2.1]).find?
        (fun r => r.jti == jti) =
      some (generateRefreshToken id t meta now jti recId store).2.1
    rw [List.find?_append]
    have hpref : store.find? (fun r => r.jti == jti) = none :=
      List.find?_eq_none.mpr (fun x hx => by simpa using hfresh x hx)
    rw [hpref]
    have hb : ((generateRefreshToken id t meta now jti recId store).2.1.jti == jti) = true :=
      beq_iff_eq.mpr rfl
    simp [List.find?_cons, hb]
  simp only [hfRT]
  have hrevN : (generateRefreshToken id t meta now jti recId store).2.1.revokedAt.isSome
      = false := rfl
  rw [if_neg (by rw [hrevN]; exact Bool.false_ne_true)]
  have hexpN : (generateRefreshToken id t meta now jti recId store).2.1.expiresAt
      = now + refreshTTL := rfl
  rw [if_neg (by rw [hexpN]; omega)]

/-- C10 (witness): the round-trip theorem applied at the one-record store
with a fresh `jti` 9, issuing at time 0 and verifying at time 10. -/
theorem generateRefreshToken_roundtrip_witness :
    (generateRefreshToken 2 OwnerType.user noMeta 0 9 7 [authOldRec]).2.1.jti =
      (generateRefreshToken 2 OwnerType.user noMeta 0 9 7 [authOldRec]).1.payload.jti
    ∧ (generateRefreshToken 2 OwnerType.user noMeta 0 9 7 [authOldRec]).2.1.expiresAt =
        (generateRefreshToken 2 OwnerType.user noMeta 0 9 7 [authOldRec]).1.exp
    ∧ (generateRefreshToken 2 OwnerType.user noMeta 0 9 7 [authOldRec]).2.1.revokedAt = none
    ∧ verifyRefreshToken (generateRefreshToken 2 OwnerType.user noMeta 0 9 7 [authOldRec]).1
        (generateRefreshToken 2 OwnerType.user noMeta 0 9 7 [authOldRec]).2.2 10 =
        Except.ok ((generateRefreshToken 2 OwnerType.user noMeta 0 9 7 [authOldRec]).1.payload,
          (generateRefreshToken 2 OwnerType.user noMeta 0 9 7 [authOldRec]).2.1) :=
  generateRefreshToken_roundtrip [authOldRec] 2 OwnerType.user noMeta 0 10 9 7
    (by decide) (by decide)
